import Mathlib

/-!
# Verification of the falling-sand grid engine

A shallow embedding of the falling-sand simulation core (`src/lib.rs`).
The data model (`Block`, `FlowDir`, `State`) and the grid engine
(`World.update`, `World.apply_gravity`, `World.can_fall_to`, accessors) are
translated definition-by-definition from the Rust source.

Randomness: the Rust code draws tie-breaks with `positions.choose()`
(macroquad's `ChooseRandom`).  We model the random source as an oracle
`R : Nat → Nat` together with a counter threaded through the tick: the k-th
draw over a non-empty candidate list `l` selects index `R k % l.length`.
Quantifying over all oracles covers every resolution of the random
tie-breaks, and every candidate is selected by some oracle value.
-/

namespace FallingSand

/-- States of matter (`enum State` in the source). -/
inductive State where
  | solid
  | liquid
  | gas
deriving DecidableEq, Repr

/-- Flowing directions for liquids (`enum FlowDir`). -/
inductive FlowDir where
  | none
  | left
  | right
deriving DecidableEq, Repr

/-- Blocks within a falling sand world (`enum Block`). -/
inductive Block where
  | air
  | stone
  | sand
  | water (flow : FlowDir)
  | lava (flow : FlowDir)
deriving DecidableEq, Repr

namespace Block

/-- Returns if this block is static and not updated (`Block::is_static`). -/
def is_static : Block → Bool
  | air => true
  | stone => true
  | _ => false

/-- Returns the density of the block, can be negative (`Block::density`). -/
def density : Block → Int
  | air => 0
  | water _ => 1
  | lava _ => 2
  | sand => 3
  | stone => 100

/-- Returns if moving into the other block is a valid operation
(`Block::can_move_to`): `self.density() > other.density()`. -/
def can_move_to (self other : Block) : Bool :=
  decide (self.density > other.density)

/-- Returns which state of matter the block is (`Block::state`). -/
def state : Block → State
  | air => State.gas
  | water _ => State.liquid
  | lava _ => State.liquid
  | sand => State.solid
  | stone => State.solid

/-- Returns the flow direction of the liquid (`Block::get_flow_dir`). -/
def get_flow_dir : Block → FlowDir
  | water flow_dir => flow_dir
  | lava flow_dir => flow_dir
  | _ => FlowDir.none

/-- Creates a copy of the liquid with a different flow direction
(`Block::clone_with_flow`).  The source panics (`unreachable!`) on
non-liquids; the engine only ever calls it on liquids, and we make the
non-liquid case return the block unchanged to keep the function total. -/
def clone_with_flow (self : Block) (flowing : FlowDir) : Block :=
  match self with
  | water _ => water flowing
  | lava _ => lava flowing
  | b => b

end Block

/-- Falling sand world (`struct World`): a `Vec<Vec<Block>>` indexed
`blocks[y][x]`, together with its dimensions. -/
structure World where
  blocks : List (List Block)
  width : Nat
  height : Nat
deriving DecidableEq, Repr

/-- Read `blocks[y][x]`.  The Rust engine indexes directly (all engine
accesses are in bounds for a well-formed world); out-of-range reads
default to `Block.air`. -/
def getB (w : World) (x y : Nat) : Block :=
  (w.blocks.getD y []).getD x Block.air

/-- Write `blocks[y][x] = b` (no-op out of range, mirroring the fact that
the engine and the bounds-checked setter only write in range). -/
def setB (w : World) (x y : Nat) (b : Block) : World :=
  { w with blocks := w.blocks.set y ((w.blocks.getD y []).set x b) }

/-- Well-formedness of the representation: the block grid really is
`height` rows of `width` cells, as `World::new` establishes and every
operation preserves. -/
def WF (w : World) : Prop :=
  w.blocks.length = w.height ∧ ∀ r ∈ w.blocks, r.length = w.width

instance (w : World) : Decidable (WF w) := by
  unfold WF; infer_instance

namespace World

/-- Returns new world with specified size (`World::new`). -/
def new (width height : Nat) : World :=
  { blocks := List.replicate height (List.replicate width Block.air),
    width := width, height := height }

/-- Returns if the block at the given position can fall into the target
position due to gravity (`World::can_fall_to`). -/
def can_fall_to (w : World) (f t : Nat × Nat) : Bool :=
  if w.width ≤ t.1 ∨ w.height ≤ t.2 then false
  else
    let from_block := getB w f.1 f.2
    let to_block := getB w t.1 t.2
    if t.1 ≠ f.1 then
      from_block.can_move_to to_block && from_block.can_move_to (getB w t.1 f.2)
    else
      from_block.can_move_to to_block

/-- The list of diagonal fall targets built inside `World::apply_gravity`
(the two guarded `positions.push` calls). -/
def fall_candidates (w : World) (x y : Nat) : List Nat :=
  (if 0 < x ∧ w.can_fall_to (x, y) (x - 1, y + 1) = true then [x - 1] else []) ++
  (if x < w.width - 1 ∧ w.can_fall_to (x, y) (x + 1, y + 1) = true then [x + 1] else [])

end World

/-- Model of `positions.choose()` (macroquad `ChooseRandom`): `none` on an
empty list, otherwise the element at the oracle-selected index
`r % l.length`. -/
def chooseIdx (r : Nat) (l : List Nat) : Option Nat :=
  if l.isEmpty then none else some (l.getD (r % l.length) 0)

namespace World

/-- Applies gravity to the specified position and returns if the block
there fell (`World::apply_gravity`).  `R` is the random oracle and `c` the
draw counter; the result is the new world, the new counter, and `fell`. -/
def apply_gravity (w : World) (R : Nat → Nat) (c x y : Nat) : World × Nat × Bool :=
  -- dont bother checking if on floor
  if w.height - 1 ≤ y then (w, c, false)
  else
    let block := getB w x y
    let below := y + 1
    if w.can_fall_to (x, y) (x, below) = true then
      -- Fall straight
      (setB (setB w x y (getB w x below)) x below block, c, true)
    else
      -- Fall to the side
      match chooseIdx (R c) (w.fall_candidates x y) with
      | none => (w, c, false)
      | some position =>
        (setB (setB w x y (getB w position below)) position below block, c + 1, true)

/-- The list of horizontal flow targets built inside the liquid branch of
`World::update` (the two guarded `positions.push` calls). -/
def flow_candidates (w : World) (block : Block) (x y : Nat) : List Nat :=
  (if 0 < x ∧ block.can_move_to (getB w (x - 1) y) = true then [x - 1] else []) ++
  (if x < w.width - 1 ∧ block.can_move_to (getB w (x + 1) y) = true then [x + 1] else [])

end World

/-- The bias-damping step of the side-flow rule: remove the other
direction if continuing the flow direction is possible (the two
`positions.remove` calls in `World::update`). -/
def damp (flow_dir : FlowDir) (x : Nat) (positions : List Nat) : List Nat :=
  if flow_dir = FlowDir.left ∧ (x - 1) ∈ positions ∧ 1 < positions.length then
    positions.eraseIdx 1
  else if flow_dir = FlowDir.right ∧ (x + 1) ∈ positions ∧ 1 < positions.length then
    positions.eraseIdx 0
  else positions

/-- The state threaded through one call of `World::update`: the world, the
list of block positions that have already been updated this tick, and the
random-draw counter. -/
structure TickState where
  w : World
  updated : List (Nat × Nat)
  ctr : Nat
deriving DecidableEq, Repr

/-- The body of the double loop in `World::update`, processing the single
cell `(x, y)`. -/
def stepCell (R : Nat → Nat) (x y : Nat) (s : TickState) : TickState :=
  let block := getB s.w x y
  if block.is_static = true ∨ (x, y) ∈ s.updated then s
  else
    match block.state with
    | State.solid =>
      let g := s.w.apply_gravity R s.ctr x y
      { w := g.1, updated := s.updated, ctr := g.2.1 }
    | State.liquid =>
      let flow_dir := block.get_flow_dir
      let g := s.w.apply_gravity R s.ctr x y
      -- Move Side-to-Side if the water didn't flow downwards
      if g.2.2 = true then { w := g.1, updated := s.updated, ctr := g.2.1 }
      else
        let w1 := g.1
        let c1 := g.2.1
        let positions := damp flow_dir x (w1.flow_candidates block x y)
        match chooseIdx (R c1) positions with
        | none => { w := w1, updated := s.updated, ctr := c1 }
        | some position =>
          let flowing := if position < x then FlowDir.left else FlowDir.right
          { w := setB (setB w1 x y (getB w1 position y)) position y
                   (block.clone_with_flow flowing),
            updated := s.updated ++ [(position, y)],
            ctr := c1 + 1 }
    | State.gas => s
    -- `State::Gas` is the `_ => unimplemented!` arm of the source match;
    -- it is unreachable because the only gas block, `Air`, is static and
    -- skipped above.  We return the state unchanged to stay total.

/-- The inner loop `for x in 0..width`: process columns `x, x+1, ...,
x+n-1` of row `y`. -/
def runCols (R : Nat → Nat) (y : Nat) : Nat → Nat → TickState → TickState
  | _, 0, s => s
  | x, Nat.succ n, s => runCols R y (x + 1) n (stepCell R x y s)

/-- The outer loop `for y in (0..height).rev()`: process rows `n-1, n-2,
..., 0`, each by a full `runCols` sweep of `width` columns. -/
def runRows (R : Nat → Nat) (width : Nat) : Nat → TickState → TickState
  | 0, s => s
  | Nat.succ n, s => runRows R width n (runCols R n 0 width s)

/-- One call of `World::update`, keeping the whole final tick state
(including the per-tick `updated` list). -/
def updateFull (R : Nat → Nat) (w : World) : TickState :=
  runRows R w.width w.height { w := w, updated := [], ctr := 0 }

/-- Updates the world state (`World::update`): one full tick. -/
def World.update (R : Nat → Nat) (w : World) : World :=
  (updateFull R w).w

/-- Runs `n` consecutive ticks; tick `i` uses its own oracle `Rs i`, so
quantifying over `Rs` covers every resolution of the random tie-breaks of
every tick. -/
def updateN (Rs : Nat → Nat → Nat) : Nat → World → World
  | 0, w => w
  | Nat.succ n, w => World.update (Rs n) (updateN Rs n w)

namespace World

/-- Returns the block at the given position (`World::get_block`):
`Some(*(self.blocks.get(y)?.get(x)?))`. -/
def get_block (w : World) (x y : Nat) : Option Block :=
  (w.blocks[y]?).bind fun row => row[x]?

/-- Sets the block at the given position (`World::set_block`): bounds
checked, silently ignored out of range. -/
def set_block (w : World) (x y : Nat) (b : Block) : World :=
  if x < w.width ∧ y < w.height then setB w x y b else w

/-- Returns the width of the world (`World::get_width`). -/
def get_width (w : World) : Nat := w.width

/-- Returns the height of the world (`World::get_height`). -/
def get_height (w : World) : Nat := w.height

end World

/-- Rows `lo + n - 1, ..., lo` of the outer sweep (a band of the
`runRows` recursion, used to reason about the sweep row by row). -/
def bandRows (R : Nat → Nat) (width lo : Nat) : Nat → TickState → TickState
  | 0, s => s
  | Nat.succ n, s => bandRows R width lo n (runCols R (lo + n) 0 width s)

/-- The situation in which the Rust bias-damping check
`flow_dir == FlowDir::Left && positions.contains(&(x-1)) && ...`
(line 153 of `lib.rs`) computes the `usize` expression `x - 1` with
`x = 0`: the cell is a non-skipped liquid, gravity returned `false` so the
side-flow code runs, and the stored bias is `Left`, so the short-circuit
`&&` goes on to evaluate `positions.contains(&(x-1))` — whose argument
`x - 1` underflows when `x = 0` (a panic under debug overflow checks; in
release builds it wraps, and the wrapped value is never a candidate). -/
def damping_left_underflow (R : Nat → Nat) (x y : Nat) (s : TickState) : Prop :=
  (getB s.w x y).is_static = false ∧ (x, y) ∉ s.updated ∧
    (getB s.w x y).state = State.liquid ∧
    (s.w.apply_gravity R s.ctr x y).2.2 = false ∧
    (getB s.w x y).get_flow_dir = FlowDir.left ∧ x = 0

/-- The 3×1 grid `[Water, Air, Air]` of the single-row end-to-end
scenario. -/
def waterRow : World :=
  { blocks := [[Block.water FlowDir.none, Block.air, Block.air]], width := 3, height := 1 }

/-- A 4×1 grid `[Water, Air, Lava, Air]` in which the water's side-flow
destination is afterwards targeted again by the denser lava. -/
def waterLavaRow : World :=
  { blocks := [[Block.water FlowDir.none, Block.air, Block.lava FlowDir.none, Block.air]], width := 4, height := 1 }

/-- A 3×1 grid `[Air, Water, Air]` from which one tick (under the oracle
choosing the left candidate) produces a left-biased water at column 0. -/
def waterMidRow : World :=
  { blocks := [[Block.air, Block.water FlowDir.none, Block.air]], width := 3, height := 1 }

/-- A 2×2 grid with sand at `(1, 0)` over stone, air on the left column:
the straight fall is blocked and the left diagonal is open. -/
def diagWorld : World :=
  { blocks := [[Block.air, Block.sand], [Block.air, Block.stone]], width := 2, height := 2 }

/-- The 3×3 all-air grid with sand set at `(1, 0)` of the sand end-to-end
scenario. -/
def sandWorld : World :=
  (World.new 3 3).set_block 1 0 Block.sand

/-- A 5×1 grid with a left-flowing water at column 3 and air everywhere
else, used for the bias-damping multi-tick scenario. -/
def waterLeftRow : World :=
  { blocks := [[Block.air, Block.air, Block.air, Block.water FlowDir.left, Block.air]], width := 5, height := 1 }

/-- The material kind of a block with the liquid flow-direction tag
disregarded (used to state conservation of matter). -/
def kind : Block → Block
  | Block.water _ => Block.water FlowDir.none
  | Block.lava _ => Block.lava FlowDir.none
  | b => b

/-- Number of cells of a row holding material kind `k`. -/
def countRow (r : List Block) (k : Block) : Nat :=
  r.countP fun b => decide (kind b = k)

/-- Number of cells of the whole grid holding material kind `k`. -/
def countW (w : World) (k : Block) : Nat :=
  (w.blocks.map fun r => countRow r k).sum

/-! ## Basic lemmas about the grid representation -/

theorem getB_eq_getElem (w : World) (x y : Nat) :
    getB w x y = ((w.blocks[y]?.getD [])[x]?).getD Block.air := by
  simp [getB, List.getD_eq_getElem?_getD]

@[simp] theorem width_setB (w : World) (x y : Nat) (b : Block) :
    (setB w x y b).width = w.width := rfl

@[simp] theorem height_setB (w : World) (x y : Nat) (b : Block) :
    (setB w x y b).height = w.height := rfl

@[simp] theorem blocks_length_setB (w : World) (x y : Nat) (b : Block) :
    (setB w x y b).blocks.length = w.blocks.length := by
  simp [setB]

/-- Reading with `getD` after `set`: the written value is read back exactly at an
in-range written index. -/
theorem getD_set (l : List α) (i j : Nat) (a d : α) :
    (l.set i a).getD j d = if i = j ∧ i < l.length then a else l.getD j d := by
  induction l generalizing i j with
  | nil => simp
  | cons hd tl ih =>
    cases i with
    | zero => cases j <;> simp
    | succ i =>
      cases j with
      | zero => simp
      | succ j => simpa using ih i j

theorem getB_setB (w : World) (x y a c : Nat) (b : Block) :
    getB (setB w x y b) a c =
      if y = c ∧ x = a ∧ y < w.blocks.length ∧ x < (w.blocks.getD y []).length then b
      else getB w a c := by
  unfold getB setB
  simp only
  rw [getD_set]
  by_cases h2 : y < w.blocks.length
  · by_cases h1 : y = c
    · subst h1
      rw [if_pos ⟨rfl, h2⟩, getD_set]
      by_cases hx : x = a ∧ x < (w.blocks.getD y []).length
      · rw [if_pos hx, if_pos ⟨rfl, hx.1, h2, hx.2⟩]
      · rw [if_neg hx, if_neg (by tauto)]
    · rw [if_neg (by tauto), if_neg (by tauto)]
  · rw [if_neg (by tauto), if_neg (by tauto)]

theorem getB_setB_ne (w : World) (x y a c : Nat) (b : Block) (h : x ≠ a ∨ y ≠ c) :
    getB (setB w x y b) a c = getB w a c := by
  rw [getB_setB, if_neg (by tauto)]

theorem getB_setB_same (w : World) (x y : Nat) (b : Block)
    (hy : y < w.blocks.length) (hx : x < (w.blocks.getD y []).length) :
    getB (setB w x y b) x y = b := by
  rw [getB_setB, if_pos ⟨rfl, rfl, hy, hx⟩]

/-- A cell that does not read back as the out-of-range default `Air` is in
range. -/
theorem bounds_of_getB_ne_air (w : World) (x y : Nat) (h : getB w x y ≠ Block.air) :
    y < w.blocks.length ∧ x < (w.blocks.getD y []).length := by
  constructor
  · by_contra hy
    apply h
    rw [getB_eq_getElem, @List.getElem?_eq_none _ w.blocks y (by omega)]
    rfl
  · by_contra hx
    apply h
    rw [getB, List.getD_eq_getElem?_getD (w.blocks.getD y []) x Block.air,
      List.getElem?_eq_none (by omega)]
    rfl

theorem WF.rowLen {w : World} (hw : WF w) {y : Nat} (hy : y < w.height) :
    (w.blocks.getD y []).length = w.width := by
  have hlt : y < w.blocks.length := by rw [hw.1]; exact hy
  rw [List.getD_eq_getElem?_getD, List.getElem?_eq_getElem hlt, Option.getD_some]
  exact hw.2 _ (List.getElem_mem hlt)

theorem WF_setB {w : World} (hw : WF w) (x y : Nat) (b : Block) : WF (setB w x y b) := by
  rcases Nat.lt_or_ge y w.blocks.length with hy | hy
  · constructor
    · simpa using hw.1
    · intro r hr
      simp only [FallingSand.setB] at hr
      rcases List.mem_or_eq_of_mem_set hr with hr | hr
      · exact hw.2 r hr
      · subst hr
        rw [List.length_set, List.getD_eq_getElem?_getD, List.getElem?_eq_getElem hy,
          Option.getD_some]
        exact hw.2 _ (List.getElem_mem hy)
  · have hid : setB w x y b = w := by
      simp only [FallingSand.setB]
      rw [List.set_eq_of_length_le hy]
    rw [hid]
    exact hw

/-! ## Lemmas about random choice and the candidate lists -/

theorem chooseIdx_eq_none_iff (r : Nat) (l : List Nat) :
    chooseIdx r l = none ↔ l = [] := by
  unfold chooseIdx
  split <;> simp_all [List.isEmpty_iff]

theorem chooseIdx_mem {r : Nat} {l : List Nat} {p : Nat} (h : chooseIdx r l = some p) :
    p ∈ l := by
  unfold chooseIdx at h
  split at h
  · exact absurd h (by simp)
  · have hne : l ≠ [] := by simp_all [List.isEmpty_iff]
    have hlen : 0 < l.length := List.length_pos.mpr hne
    have hlt : r % l.length < l.length := Nat.mod_lt _ hlen
    obtain rfl : l.getD (r % l.length) 0 = p := by injection h
    rw [List.getD_eq_getElem _ _ hlt]
    exact List.getElem_mem hlt

/-- Every candidate is selected by some value of the random oracle: the
draw is uniform over the candidate list. -/
theorem chooseIdx_surj {l : List Nat} {p : Nat} (h : p ∈ l) :
    ∃ r, chooseIdx r l = some p := by
  obtain ⟨i, hi, rfl⟩ := List.mem_iff_getElem.mp h
  refine ⟨i, ?_⟩
  unfold chooseIdx
  rw [if_neg (by simp [List.isEmpty_iff]; rintro rfl; simp at hi)]
  rw [Nat.mod_eq_of_lt hi, List.getD_eq_getElem _ _ hi]

@[simp] theorem chooseIdx_singleton (r a : Nat) : chooseIdx r [a] = some a := by
  simp [chooseIdx, Nat.mod_one]

theorem mem_fall_candidates {w : World} {x y p : Nat} :
    p ∈ w.fall_candidates x y ↔
      (p = x - 1 ∧ 0 < x ∧ w.can_fall_to (x, y) (x - 1, y + 1) = true) ∨
      (p = x + 1 ∧ x < w.width - 1 ∧ w.can_fall_to (x, y) (x + 1, y + 1) = true) := by
  unfold World.fall_candidates
  split <;> split <;> simp_all

theorem mem_flow_candidates {w : World} {b : Block} {x y p : Nat} :
    p ∈ w.flow_candidates b x y ↔
      (p = x - 1 ∧ 0 < x ∧ b.can_move_to (getB w (x - 1) y) = true) ∨
      (p = x + 1 ∧ x < w.width - 1 ∧ b.can_move_to (getB w (x + 1) y) = true) := by
  unfold World.flow_candidates
  split <;> split <;> simp_all

theorem mem_damp {fd : FlowDir} {x : Nat} {l : List Nat} {p : Nat} (h : p ∈ damp fd x l) :
    p ∈ l := by
  unfold damp at h
  split at h
  · exact List.mem_of_mem_eraseIdx h
  · split at h
    · exact List.mem_of_mem_eraseIdx h
    · exact h

/-! ## Lemmas about the material model -/

theorem can_move_to_iff {a b : Block} :
    a.can_move_to b = true ↔ b.density < a.density := by
  simp [Block.can_move_to]

theorem density_le_of_not_static {b : Block} (h : b.is_static = false) :
    b.density ≤ 3 := by
  cases b <;> simp_all [Block.is_static, Block.density]

@[simp] theorem can_move_to_stone (b : Block) : b.can_move_to Block.stone = false := by
  cases b <;> rfl

theorem not_can_move_to_sand {b : Block} (h : b.is_static = false) :
    b.can_move_to Block.sand = false := by
  cases b <;> simp_all [Block.is_static] <;> rfl

theorem state_gas_eq_air {b : Block} (h : b.state = State.gas) : b = Block.air := by
  cases b <;> simp_all [Block.state]

theorem state_liquid_not_static {b : Block} (h : b.state = State.liquid) :
    b.is_static = false := by
  cases b <;> simp_all [Block.state] <;> rfl

theorem density_le_of_liquid {b : Block} (h : b.state = State.liquid) :
    b.density ≤ 2 := by
  cases b <;> simp_all [Block.state, Block.density]

theorem sand_density : Block.sand.density = 3 := rfl

@[simp] theorem kind_clone_with_flow (b : Block) (f : FlowDir) :
    kind (b.clone_with_flow f) = kind b := by
  cases b <;> rfl

/-! ## Case analysis of gravity resolution -/

theorem can_fall_to_same_col {w : World} {x y : Nat} :
    w.can_fall_to (x, y) (x, y + 1) = true ↔
      x < w.width ∧ y + 1 < w.height ∧
        (getB w x y).can_move_to (getB w x (y + 1)) = true := by
  unfold World.can_fall_to
  split
  · constructor
    · intro h
      exact absurd h (by simp)
    · intro h
      omega
  · simp only [if_neg (by simp : ¬ (x ≠ x))]
    constructor
    · intro h
      refine ⟨by omega, by omega, h⟩
    · intro h
      exact h.2.2

theorem can_fall_to_other_col {w : World} {x y p : Nat} (hpx : p ≠ x) :
    w.can_fall_to (x, y) (p, y + 1) = true ↔
      p < w.width ∧ y + 1 < w.height ∧
        (getB w x y).can_move_to (getB w p (y + 1)) = true ∧
        (getB w x y).can_move_to (getB w p y) = true := by
  unfold World.can_fall_to
  split
  · constructor
    · intro h
      exact absurd h (by simp)
    · intro h
      omega
  · simp only [if_pos hpx]
    constructor
    · intro h
      simp only [Bool.and_eq_true] at h
      refine ⟨by omega, by omega, h.1, h.2⟩
    · intro h
      simp only [Bool.and_eq_true]
      exact ⟨h.2.2.1, h.2.2.2⟩

/-- The four possible outcomes of `World::apply_gravity`: on the floor (no
move), straight fall, no candidate (no move), or a random diagonal
fall. -/
theorem apply_gravity_spec (w : World) (R : Nat → Nat) (c x y : Nat) :
    (w.height - 1 ≤ y ∧ w.apply_gravity R c x y = (w, c, false)) ∨
    (¬ (w.height - 1 ≤ y) ∧ w.can_fall_to (x, y) (x, y + 1) = true ∧
      w.apply_gravity R c x y =
        (setB (setB w x y (getB w x (y + 1))) x (y + 1) (getB w x y), c, true)) ∨
    (¬ (w.height - 1 ≤ y) ∧ w.can_fall_to (x, y) (x, y + 1) = false ∧
      w.fall_candidates x y = [] ∧ w.apply_gravity R c x y = (w, c, false)) ∨
    (¬ (w.height - 1 ≤ y) ∧ w.can_fall_to (x, y) (x, y + 1) = false ∧
      ∃ p, p ∈ w.fall_candidates x y ∧
        chooseIdx (R c) (w.fall_candidates x y) = some p ∧
        w.apply_gravity R c x y =
          (setB (setB w x y (getB w p (y + 1))) p (y + 1) (getB w x y), c + 1, true)) := by
  unfold World.apply_gravity
  by_cases hfloor : w.height - 1 ≤ y
  · left
    rw [if_pos hfloor]
    exact ⟨hfloor, rfl⟩
  · rw [if_neg hfloor]
    simp only
    by_cases hstraight : w.can_fall_to (x, y) (x, y + 1) = true
    · right; left
      rw [if_pos hstraight]
      exact ⟨hfloor, hstraight, rfl⟩
    · rw [if_neg hstraight]
      rcases hch : chooseIdx (R c) (w.fall_candidates x y) with _ | p
      · right; right; left
        exact ⟨hfloor, by simpa using hstraight, (chooseIdx_eq_none_iff _ _).mp hch, rfl⟩
      · right; right; right
        exact ⟨hfloor, by simpa using hstraight, p, chooseIdx_mem hch, rfl, rfl⟩

/-- When gravity reports that the block did not fall, the world and the
draw counter are unchanged. -/
theorem apply_gravity_of_not_fell {w : World} {R : Nat → Nat} {c x y : Nat}
    (h : (w.apply_gravity R c x y).2.2 = false) :
    w.apply_gravity R c x y = (w, c, false) := by
  rcases apply_gravity_spec w R c x y with ⟨-, hg⟩ | ⟨-, -, hg⟩ | ⟨-, -, -, hg⟩ |
    ⟨-, -, p, -, -, hg⟩ <;> rw [hg] <;> rw [hg] at h <;> simp_all

/-! ## Case analysis of one cell step -/

theorem stepCell_eq_skip {R : Nat → Nat} {x y : Nat} {s : TickState}
    (h : (getB s.w x y).is_static = true ∨ (x, y) ∈ s.updated) :
    stepCell R x y s = s := by
  unfold stepCell
  simp only
  rw [if_pos h]

theorem stepCell_eq_solid {R : Nat → Nat} {x y : Nat} {s : TickState}
    (h : ¬ ((getB s.w x y).is_static = true ∨ (x, y) ∈ s.updated))
    (hst : (getB s.w x y).state = State.solid) :
    stepCell R x y s =
      { w := (s.w.apply_gravity R s.ctr x y).1, updated := s.updated,
        ctr := (s.w.apply_gravity R s.ctr x y).2.1 } := by
  unfold stepCell
  simp only
  rw [if_neg h, hst]

theorem stepCell_eq_liquid_fell {R : Nat → Nat} {x y : Nat} {s : TickState}
    (h : ¬ ((getB s.w x y).is_static = true ∨ (x, y) ∈ s.updated))
    (hst : (getB s.w x y).state = State.liquid)
    (hfell : (s.w.apply_gravity R s.ctr x y).2.2 = true) :
    stepCell R x y s =
      { w := (s.w.apply_gravity R s.ctr x y).1, updated := s.updated,
        ctr := (s.w.apply_gravity R s.ctr x y).2.1 } := by
  unfold stepCell
  simp only
  rw [if_neg h, hst]
  simp only [hfell, if_pos]

theorem stepCell_eq_liquid_noflow {R : Nat → Nat} {x y : Nat} {s : TickState}
    (h : ¬ ((getB s.w x y).is_static = true ∨ (x, y) ∈ s.updated))
    (hst : (getB s.w x y).state = State.liquid)
    (hfell : (s.w.apply_gravity R s.ctr x y).2.2 = false)
    (hch : chooseIdx (R s.ctr)
        (damp (getB s.w x y).get_flow_dir x (s.w.flow_candidates (getB s.w x y) x y)) =
        none) :
    stepCell R x y s = s := by
  have hag := apply_gravity_of_not_fell hfell
  unfold stepCell
  simp only
  rw [if_neg h, hst]
  simp only [hag, hch]
  rfl

theorem stepCell_eq_liquid_flow {R : Nat → Nat} {x y : Nat} {s : TickState} {p : Nat}
    (h : ¬ ((getB s.w x y).is_static = true ∨ (x, y) ∈ s.updated))
    (hst : (getB s.w x y).state = State.liquid)
    (hfell : (s.w.apply_gravity R s.ctr x y).2.2 = false)
    (hch : chooseIdx (R s.ctr)
        (damp (getB s.w x y).get_flow_dir x (s.w.flow_candidates (getB s.w x y) x y)) =
        some p) :
    stepCell R x y s =
      { w := setB (setB s.w x y (getB s.w p y)) p y
               ((getB s.w x y).clone_with_flow
                 (if p < x then FlowDir.left else FlowDir.right)),
        updated := s.updated ++ [(p, y)], ctr := s.ctr + 1 } := by
  have hag := apply_gravity_of_not_fell hfell
  unfold stepCell
  simp only
  rw [if_neg h, hst]
  simp only [hag, hch]
  rfl

/-- The possible outcomes of the loop body of `World::update` on one cell:
skipped (static or already updated), solid gravity, liquid that fell,
liquid with no flow destination, or liquid side-flow with a random
destination. -/
theorem stepCell_spec (R : Nat → Nat) (x y : Nat) (s : TickState) :
    (((getB s.w x y).is_static = true ∨ (x, y) ∈ s.updated) ∧ stepCell R x y s = s) ∨
    ((getB s.w x y).is_static = false ∧ (x, y) ∉ s.updated ∧
      (((getB s.w x y).state = State.solid ∧
         stepCell R x y s =
           { w := (s.w.apply_gravity R s.ctr x y).1, updated := s.updated,
             ctr := (s.w.apply_gravity R s.ctr x y).2.1 }) ∨
       ((getB s.w x y).state = State.liquid ∧ (s.w.apply_gravity R s.ctr x y).2.2 = true ∧
         stepCell R x y s =
           { w := (s.w.apply_gravity R s.ctr x y).1, updated := s.updated,
             ctr := (s.w.apply_gravity R s.ctr x y).2.1 }) ∨
       ((getB s.w x y).state = State.liquid ∧
         s.w.apply_gravity R s.ctr x y = (s.w, s.ctr, false) ∧
         chooseIdx (R s.ctr)
           (damp (getB s.w x y).get_flow_dir x (s.w.flow_candidates (getB s.w x y) x y)) =
           none ∧
         stepCell R x y s = s) ∨
       ((getB s.w x y).state = State.liquid ∧
         s.w.apply_gravity R s.ctr x y = (s.w, s.ctr, false) ∧
         ∃ p, p ∈ s.w.flow_candidates (getB s.w x y) x y ∧
           chooseIdx (R s.ctr)
             (damp (getB s.w x y).get_flow_dir x (s.w.flow_candidates (getB s.w x y) x y)) =
             some p ∧
           stepCell R x y s =
             { w := setB (setB s.w x y (getB s.w p y)) p y
                      ((getB s.w x y).clone_with_flow
                        (if p < x then FlowDir.left else FlowDir.right)),
               updated := s.updated ++ [(p, y)], ctr := s.ctr + 1 }))) := by
  by_cases hskip : (getB s.w x y).is_static = true ∨ (x, y) ∈ s.updated
  · exact Or.inl ⟨hskip, stepCell_eq_skip hskip⟩
  · right
    have h1 : (getB s.w x y).is_static = false := by
      rcases not_or.mp hskip with ⟨ha, -⟩
      simpa using ha
    have h2 : (x, y) ∉ s.updated := (not_or.mp hskip).2
    refine ⟨h1, h2, ?_⟩
    rcases hst : (getB s.w x y).state with _ | _ | _
    · exact Or.inl ⟨rfl, stepCell_eq_solid hskip hst⟩
    · by_cases hfell : (s.w.apply_gravity R s.ctr x y).2.2 = true
      · exact Or.inr (Or.inl ⟨rfl, hfell, stepCell_eq_liquid_fell hskip hst hfell⟩)
      · have hfell2 : (s.w.apply_gravity R s.ctr x y).2.2 = false := by
          simpa using hfell
        have hag := apply_gravity_of_not_fell hfell2
        rcases hch : chooseIdx (R s.ctr)
            (damp (getB s.w x y).get_flow_dir x (s.w.flow_candidates (getB s.w x y) x y))
          with _ | p
        · exact Or.inr (Or.inr (Or.inl
            ⟨rfl, hag, rfl, stepCell_eq_liquid_noflow hskip hst hfell2 hch⟩))
        · exact Or.inr (Or.inr (Or.inr ⟨rfl, hag, p, mem_damp (chooseIdx_mem hch), rfl,
            stepCell_eq_liquid_flow hskip hst hfell2 hch⟩))
    · exfalso
      have hair : (getB s.w x y) = Block.air := state_gas_eq_air hst
      rw [hair] at h1
      exact absurd h1 (by simp [Block.is_static])

/-- Reading an untouched cell through two writes. -/
theorem getB_double_setB_ne {w : World} {x1 y1 x2 y2 a c : Nat} {b1 b2 : Block}
    (h2 : ¬ (x2 = a ∧ y2 = c)) (h1 : ¬ (x1 = a ∧ y1 = c)) :
    getB (setB (setB w x1 y1 b1) x2 y2 b2) a c = getB w a c := by
  rw [getB_setB_ne _ _ _ _ _ _ (by tauto), getB_setB_ne _ _ _ _ _ _ (by tauto)]

/-- Any cell whose content changes during one cell step is either the
mover's own cell, a straight/diagonal gravity target in the row below the
mover (displaceable, and for a diagonal also not blocked beside the
mover), or a side-flow target beside a liquid mover (displaceable). -/
theorem stepCell_getB_ne {R : Nat → Nat} {x y : Nat} {s : TickState} {a b : Nat}
    (hne : getB (stepCell R x y s).w a b ≠ getB s.w a b) :
    (getB s.w x y).is_static = false ∧ (x, y) ∉ s.updated ∧
      ((a = x ∧ b = y) ∨
       (b = y + 1 ∧ (getB s.w x y).can_move_to (getB s.w a b) = true ∧
         (a = x ∨ ((getB s.w x y).can_move_to (getB s.w a y) = true ∧ a ≠ x))) ∨
       (b = y ∧ a ≠ x ∧ (getB s.w x y).state = State.liquid ∧
         (getB s.w x y).can_move_to (getB s.w a b) = true)) := by
  rcases stepCell_spec R x y s with ⟨-, heq⟩ | ⟨h1, h2, hcase⟩
  · rw [heq] at hne
    exact absurd rfl hne
  · refine ⟨h1, h2, ?_⟩
    have gravity_writes :
        (s.w.apply_gravity R s.ctr x y).1 = (stepCell R x y s).w →
          (a = x ∧ b = y) ∨
          (b = y + 1 ∧ (getB s.w x y).can_move_to (getB s.w a b) = true ∧
            (a = x ∨ ((getB s.w x y).can_move_to (getB s.w a y) = true ∧ a ≠ x))) := by
      intro hg
      rw [← hg] at hne
      rcases apply_gravity_spec s.w R s.ctr x y with ⟨-, hag⟩ | ⟨-, hfall, hag⟩ |
        ⟨-, -, -, hag⟩ | ⟨-, -, p, hp, -, hag⟩
      · rw [hag] at hne
        exact absurd rfl hne
      · rw [hag] at hne
        simp only at hne
        by_cases hc2 : x = a ∧ y + 1 = b
        · rcases can_fall_to_same_col.mp hfall with ⟨-, -, hmv⟩
          refine Or.inr ⟨hc2.2.symm, ?_, Or.inl hc2.1.symm⟩
          rw [← hc2.1, ← hc2.2]
          exact hmv
        · by_cases hc1 : x = a ∧ y = b
          · exact Or.inl ⟨hc1.1.symm, hc1.2.symm⟩
          · rw [getB_double_setB_ne hc2 hc1] at hne
            exact absurd rfl hne
      · rw [hag] at hne
        exact absurd rfl hne
      · rw [hag] at hne
        simp only at hne
        have hpx : p ≠ x := by
          rcases mem_fall_candidates.mp hp with ⟨rfl, hx, -⟩ | ⟨rfl, -, -⟩ <;> omega
        have hdiag : (getB s.w x y).can_move_to (getB s.w p (y + 1)) = true ∧
            (getB s.w x y).can_move_to (getB s.w p y) = true := by
          rcases mem_fall_candidates.mp hp with ⟨hp1, -, hcf⟩ | ⟨hp1, -, hcf⟩ <;>
            subst hp1
          · exact ⟨((can_fall_to_other_col hpx).mp hcf).2.2.1,
              ((can_fall_to_other_col hpx).mp hcf).2.2.2⟩
          · exact ⟨((can_fall_to_other_col hpx).mp hcf).2.2.1,
              ((can_fall_to_other_col hpx).mp hcf).2.2.2⟩
        by_cases hc2 : p = a ∧ y + 1 = b
        · refine Or.inr ⟨hc2.2.symm, ?_, Or.inr ⟨?_, by omega⟩⟩
          · rw [← hc2.1, ← hc2.2]
            exact hdiag.1
          · rw [← hc2.1]
            exact hdiag.2
        · by_cases hc1 : x = a ∧ y = b
          · exact Or.inl ⟨hc1.1.symm, hc1.2.symm⟩
          · rw [getB_double_setB_ne hc2 hc1] at hne
            exact absurd rfl hne
    rcases hcase with ⟨hsolid, heq⟩ | ⟨hliq, -, heq⟩ | ⟨-, -, -, heq⟩ |
      ⟨hliq, -, p, hp, -, heq⟩
    · rcases gravity_writes (by rw [heq]) with h | h
      · exact Or.inl h
      · exact Or.inr (Or.inl h)
    · rcases gravity_writes (by rw [heq]) with h | h
      · exact Or.inl h
      · exact Or.inr (Or.inl h)
    · rw [heq] at hne
      exact absurd rfl hne
    · rw [heq] at hne
      simp only at hne
      have hpx : p ≠ x := by
        rcases mem_flow_candidates.mp hp with ⟨rfl, hx, -⟩ | ⟨rfl, -, -⟩ <;> omega
      have hmv : (getB s.w x y).can_move_to (getB s.w p y) = true := by
        rcases mem_flow_candidates.mp hp with ⟨hp1, -, h⟩ | ⟨hp1, -, h⟩ <;> rw [hp1] <;>
          exact h
      by_cases hc2 : p = a ∧ y = b
      · refine Or.inr (Or.inr ⟨hc2.2.symm, by omega, hliq, ?_⟩)
        rw [← hc2.1, ← hc2.2]
        exact hmv
      · by_cases hc1 : x = a ∧ y = b
        · exact Or.inl ⟨hc1.1.symm, hc1.2.symm⟩
        · rw [getB_double_setB_ne hc2 hc1] at hne
          exact absurd rfl hne

/-- Entries added to the per-tick update list during one cell step all lie
in the mover's row, at a side-flow destination the liquid mover can
displace. -/
theorem stepCell_updated_mem {R : Nat → Nat} {x y : Nat} {s : TickState} {q : Nat × Nat}
    (hq : q ∈ (stepCell R x y s).updated) :
    q ∈ s.updated ∨
      (q.2 = y ∧ q.1 ≠ x ∧ (getB s.w x y).state = State.liquid ∧
        (getB s.w x y).can_move_to (getB s.w q.1 y) = true) := by
  rcases stepCell_spec R x y s with ⟨-, heq⟩ | ⟨-, -, hcase⟩
  · rw [heq] at hq
    exact Or.inl hq
  · rcases hcase with ⟨-, heq⟩ | ⟨-, -, heq⟩ | ⟨-, -, -, heq⟩ | ⟨hliq, -, p, hp, -, heq⟩ <;>
      rw [heq] at hq
    · exact Or.inl hq
    · exact Or.inl hq
    · exact Or.inl hq
    · simp only [List.mem_append, List.mem_singleton] at hq
      rcases hq with hq | rfl
      · exact Or.inl hq
      · right
        have hpx : p ≠ x := by
          rcases mem_flow_candidates.mp hp with ⟨rfl, hx, -⟩ | ⟨rfl, -, -⟩ <;> omega
        have hmv : (getB s.w x y).can_move_to (getB s.w p y) = true := by
          rcases mem_flow_candidates.mp hp with ⟨hp1, -, h⟩ | ⟨hp1, -, h⟩ <;> rw [hp1] <;>
            exact h
        exact ⟨rfl, hpx, hliq, hmv⟩

@[simp] theorem apply_gravity_width (w : World) (R : Nat → Nat) (c x y : Nat) :
    (w.apply_gravity R c x y).1.width = w.width := by
  rcases apply_gravity_spec w R c x y with ⟨-, hag⟩ | ⟨-, -, hag⟩ | ⟨-, -, -, hag⟩ |
    ⟨-, -, p, -, -, hag⟩ <;> rw [hag] <;> simp

@[simp] theorem apply_gravity_height (w : World) (R : Nat → Nat) (c x y : Nat) :
    (w.apply_gravity R c x y).1.height = w.height := by
  rcases apply_gravity_spec w R c x y with ⟨-, hag⟩ | ⟨-, -, hag⟩ | ⟨-, -, -, hag⟩ |
    ⟨-, -, p, -, -, hag⟩ <;> rw [hag] <;> simp

@[simp] theorem stepCell_width (R : Nat → Nat) (x y : Nat) (s : TickState) :
    (stepCell R x y s).w.width = s.w.width := by
  rcases stepCell_spec R x y s with ⟨-, heq⟩ | ⟨-, -, hcase⟩
  · rw [heq]
  · rcases hcase with ⟨-, heq⟩ | ⟨-, -, heq⟩ | ⟨-, -, -, heq⟩ | ⟨-, -, p, -, -, heq⟩ <;>
      rw [heq] <;> simp

@[simp] theorem stepCell_height (R : Nat → Nat) (x y : Nat) (s : TickState) :
    (stepCell R x y s).w.height = s.w.height := by
  rcases stepCell_spec R x y s with ⟨-, heq⟩ | ⟨-, -, hcase⟩
  · rw [heq]
  · rcases hcase with ⟨-, heq⟩ | ⟨-, -, heq⟩ | ⟨-, -, -, heq⟩ | ⟨-, -, p, -, -, heq⟩ <;>
      rw [heq] <;> simp

theorem WF_apply_gravity {w : World} (hw : WF w) (R : Nat → Nat) (c x y : Nat) :
    WF (w.apply_gravity R c x y).1 := by
  rcases apply_gravity_spec w R c x y with ⟨-, hag⟩ | ⟨-, -, hag⟩ | ⟨-, -, -, hag⟩ |
    ⟨-, -, p, -, -, hag⟩ <;> rw [hag]
  · exact hw
  · exact WF_setB (WF_setB hw _ _ _) _ _ _
  · exact hw
  · exact WF_setB (WF_setB hw _ _ _) _ _ _

theorem WF_stepCell {s : TickState} (hw : WF s.w) (R : Nat → Nat) (x y : Nat) :
    WF (stepCell R x y s).w := by
  rcases stepCell_spec R x y s with ⟨-, heq⟩ | ⟨-, -, hcase⟩
  · rw [heq]
    exact hw
  · rcases hcase with ⟨-, heq⟩ | ⟨-, -, heq⟩ | ⟨-, -, -, heq⟩ | ⟨-, -, p, -, -, heq⟩ <;>
      rw [heq]
    · exact WF_apply_gravity hw R s.ctr x y
    · exact WF_apply_gravity hw R s.ctr x y
    · exact hw
    · exact WF_setB (WF_setB hw _ _ _) _ _ _

/-! ## Decomposition of the sweep -/

theorem runCols_succ (R : Nat → Nat) (y x n : Nat) (s : TickState) :
    runCols R y x (n + 1) s = runCols R y (x + 1) n (stepCell R x y s) := rfl

theorem runCols_add (R : Nat → Nat) (y m n x : Nat) (s : TickState) :
    runCols R y x (m + n) s = runCols R y (x + m) n (runCols R y x m s) := by
  induction m generalizing x s with
  | zero => simp [runCols]
  | succ m ih =>
    rw [show m + 1 + n = (m + n) + 1 from by omega, runCols_succ, ih, runCols_succ]
    rw [show x + (m + 1) = x + 1 + m from by omega]

theorem runCols_inv (R : Nat → Nat) (y x n : Nat) (P : TickState → Prop)
    (hstep : ∀ xc s2, x ≤ xc → xc < x + n → P s2 → P (stepCell R xc y s2)) :
    ∀ s, P s → P (runCols R y x n s) := by
  induction n generalizing x with
  | zero => exact fun s hs => hs
  | succ n ih =>
    intro s hs
    rw [runCols_succ]
    exact ih (x + 1) (fun xc s2 ha hb hp => hstep xc s2 (by omega) (by omega) hp) _
      (hstep x s (Nat.le_refl x) (by omega) hs)

theorem bandRows_succ (R : Nat → Nat) (wd lo n : Nat) (s : TickState) :
    bandRows R wd lo (n + 1) s = bandRows R wd lo n (runCols R (lo + n) 0 wd s) := rfl

theorem runRows_eq_bandRows (R : Nat → Nat) (wd n : Nat) (s : TickState) :
    runRows R wd n s = bandRows R wd 0 n s := by
  induction n generalizing s with
  | zero => rfl
  | succ n ih =>
    show runRows R wd n (runCols R n 0 wd s) = _
    rw [ih, bandRows_succ, Nat.zero_add]

theorem bandRows_add (R : Nat → Nat) (wd lo a b : Nat) (s : TickState) :
    bandRows R wd lo (a + b) s = bandRows R wd lo a (bandRows R wd (lo + a) b s) := by
  induction b generalizing s with
  | zero => rfl
  | succ b ih =>
    rw [show a + (b + 1) = (a + b) + 1 from rfl, bandRows_succ, ih, bandRows_succ]
    rw [Nat.add_assoc]

theorem bandRows_inv (R : Nat → Nat) (wd lo n : Nat) (P : TickState → Prop)
    (hrow : ∀ yr s2, lo ≤ yr → yr < lo + n → P s2 → P (runCols R yr 0 wd s2)) :
    ∀ s, P s → P (bandRows R wd lo n s) := by
  induction n with
  | zero => exact fun s hs => hs
  | succ n ih =>
    intro s hs
    rw [bandRows_succ]
    exact ih (fun yr s2 ha hb hp => hrow yr s2 ha (by omega) hp) _
      (hrow (lo + n) s (by omega) (by omega) hs)

/-! ## Value tracking through one cell step -/

@[simp] theorem density_clone_with_flow (b : Block) (f : FlowDir) :
    (b.clone_with_flow f).density = b.density := by
  cases b <;> rfl

/-- The mover's own cell, if it changes, receives a block the mover could
displace (the displaced content rises into the vacated cell). -/
theorem stepCell_getB_mover (R : Nat → Nat) (x y : Nat) (s : TickState) :
    getB (stepCell R x y s).w x y = getB s.w x y ∨
    (getB s.w x y).can_move_to (getB (stepCell R x y s).w x y) = true := by
  rcases stepCell_spec R x y s with ⟨-, heq⟩ | ⟨-, -, hcase⟩
  · rw [heq]
    exact Or.inl rfl
  · have gravity_case :
        (s.w.apply_gravity R s.ctr x y).1 = (stepCell R x y s).w →
          getB (stepCell R x y s).w x y = getB s.w x y ∨
          (getB s.w x y).can_move_to (getB (stepCell R x y s).w x y) = true := by
      intro hg
      rw [← hg]
      rcases apply_gravity_spec s.w R s.ctr x y with ⟨-, hag⟩ | ⟨-, hfall, hag⟩ |
        ⟨-, -, -, hag⟩ | ⟨-, -, p, hp, -, hag⟩
      · rw [hag]
        exact Or.inl rfl
      · rw [hag]
        simp only
        rw [getB_setB_ne _ _ _ _ _ _ (Or.inr (by omega)), getB_setB]
        split_ifs with hin
        · exact Or.inr (can_fall_to_same_col.mp hfall).2.2
        · exact Or.inl rfl
      · rw [hag]
        exact Or.inl rfl
      · have hpx : p ≠ x := by
          rcases mem_fall_candidates.mp hp with ⟨rfl, hx, -⟩ | ⟨rfl, -, -⟩ <;> omega
        have hmv : (getB s.w x y).can_move_to (getB s.w p (y + 1)) = true := by
          rcases mem_fall_candidates.mp hp with ⟨hp1, -, hcf⟩ | ⟨hp1, -, hcf⟩ <;> subst hp1 <;>
            exact ((can_fall_to_other_col hpx).mp hcf).2.2.1
        rw [hag]
        simp only
        rw [getB_setB_ne _ _ _ _ _ _ (Or.inl hpx), getB_setB]
        split_ifs with hin
        · exact Or.inr hmv
        · exact Or.inl rfl
    rcases hcase with ⟨-, heq⟩ | ⟨-, -, heq⟩ | ⟨-, -, -, heq⟩ | ⟨-, -, p, hp, -, heq⟩
    · exact gravity_case (by rw [heq])
    · exact gravity_case (by rw [heq])
    · rw [heq]
      exact Or.inl rfl
    · have hpx : p ≠ x := by
        rcases mem_flow_candidates.mp hp with ⟨rfl, hx, -⟩ | ⟨rfl, -, -⟩ <;> omega
      have hmv : (getB s.w x y).can_move_to (getB s.w p y) = true := by
        rcases mem_flow_candidates.mp hp with ⟨hp1, -, h⟩ | ⟨hp1, -, h⟩ <;> rw [hp1] <;>
          exact h
      rw [heq]
      simp only
      rw [getB_setB_ne _ _ _ _ _ _ (Or.inl hpx), getB_setB]
      split_ifs with hin
      · exact Or.inr hmv
      · exact Or.inl rfl

/-- A changed cell other than the mover's own cell receives the moved
block itself (possibly with a rewritten flow tag): its density is the
mover's density. -/
theorem stepCell_getB_target {R : Nat → Nat} {x y : Nat} {s : TickState} {a b : Nat}
    (hne : getB (stepCell R x y s).w a b ≠ getB s.w a b)
    (hnm : ¬ (a = x ∧ b = y)) :
    (getB (stepCell R x y s).w a b).density = (getB s.w x y).density := by
  have hswap : ∀ (p c : Nat) (b2 : Block), b2.density = (getB s.w x y).density →
      ¬ (x = p ∧ y = c) →
      (stepCell R x y s).w = setB (setB s.w x y (getB s.w p c)) p c b2 →
      (getB (stepCell R x y s).w a b).density = (getB s.w x y).density := by
    intro p c b2 hb2 hinner hg
    by_cases hc : p = a ∧ c = b
    · obtain ⟨rfl, rfl⟩ := hc
      rw [hg] at hne ⊢
      rw [getB_setB] at hne ⊢
      split_ifs at hne ⊢ with h
      · exact hb2
      · rw [getB_setB_ne _ _ _ _ _ _ (by tauto)] at hne
        exact absurd rfl hne
    · rw [hg, getB_double_setB_ne hc (by tauto)] at hne
      exact absurd rfl hne
  rcases stepCell_spec R x y s with ⟨-, heq⟩ | ⟨-, -, hcase⟩
  · rw [heq] at hne
    exact absurd rfl hne
  · have gravity_case :
        (stepCell R x y s).w = (s.w.apply_gravity R s.ctr x y).1 →
          (getB (stepCell R x y s).w a b).density = (getB s.w x y).density := by
      intro hg
      rcases apply_gravity_spec s.w R s.ctr x y with ⟨-, hag⟩ | ⟨-, hfall, hag⟩ |
        ⟨-, -, -, hag⟩ | ⟨-, -, p, hp, -, hag⟩
      · rw [hg, hag] at hne
        exact absurd rfl hne
      · exact hswap x (y + 1) (getB s.w x y) rfl (by omega) (by rw [hg, hag])
      · rw [hg, hag] at hne
        exact absurd rfl hne
      · have hpx : p ≠ x := by
          rcases mem_fall_candidates.mp hp with ⟨rfl, hx, -⟩ | ⟨rfl, -, -⟩ <;> omega
        exact hswap p (y + 1) (getB s.w x y) rfl (by tauto) (by rw [hg, hag])
    rcases hcase with ⟨-, heq⟩ | ⟨-, -, heq⟩ | ⟨-, -, -, heq⟩ | ⟨-, -, p, hp, -, heq⟩
    · exact gravity_case (by rw [heq])
    · exact gravity_case (by rw [heq])
    · rw [heq] at hne
      exact absurd rfl hne
    · have hpx : p ≠ x := by
        rcases mem_flow_candidates.mp hp with ⟨rfl, hx, -⟩ | ⟨rfl, -, -⟩ <;> omega
      exact hswap p y
        ((getB s.w x y).clone_with_flow (if p < x then FlowDir.left else FlowDir.right))
        (density_clone_with_flow _ _) (by tauto) (by rw [heq])

/-! ## Tick-by-tick evaluation of the concrete scenarios

Every random draw in these runs is over a singleton candidate list (after
bias damping), so the outcome is the same for every oracle. -/

theorem waterRow_tick1 (R : Nat → Nat) :
    World.update R waterRow =
      { blocks := [[Block.air, Block.water FlowDir.right, Block.air]], width := 3, height := 1 } := by
  simp [World.update, updateFull, runRows, runCols, stepCell, World.apply_gravity,
    World.can_fall_to, World.flow_candidates, World.fall_candidates, damp, waterRow,
    getB, setB, Block.can_move_to, Block.density, Block.is_static, Block.state,
    Block.get_flow_dir, Block.clone_with_flow, chooseIdx, Nat.mod_one]

theorem waterRow_tick2 (R : Nat → Nat) :
    World.update R { blocks := [[Block.air, Block.water FlowDir.right, Block.air]], width := 3, height := 1 } =
      { blocks := [[Block.air, Block.air, Block.water FlowDir.right]], width := 3, height := 1 } := by
  simp [World.update, updateFull, runRows, runCols, stepCell, World.apply_gravity,
    World.can_fall_to, World.flow_candidates, World.fall_candidates, damp,
    getB, setB, Block.can_move_to, Block.density, Block.is_static, Block.state,
    Block.get_flow_dir, Block.clone_with_flow, chooseIdx, Nat.mod_one]

theorem waterRow_tick3 (R : Nat → Nat) :
    World.update R { blocks := [[Block.air, Block.air, Block.water FlowDir.right]], width := 3, height := 1 } =
      { blocks := [[Block.air, Block.water FlowDir.left, Block.air]], width := 3, height := 1 } := by
  simp [World.update, updateFull, runRows, runCols, stepCell, World.apply_gravity,
    World.can_fall_to, World.flow_candidates, World.fall_candidates, damp,
    getB, setB, Block.can_move_to, Block.density, Block.is_static, Block.state,
    Block.get_flow_dir, Block.clone_with_flow, chooseIdx, Nat.mod_one]

theorem waterRow_tick4 (R : Nat → Nat) :
    World.update R { blocks := [[Block.air, Block.water FlowDir.left, Block.air]], width := 3, height := 1 } =
      { blocks := [[Block.water FlowDir.left, Block.air, Block.air]], width := 3, height := 1 } := by
  simp [World.update, updateFull, runRows, runCols, stepCell, World.apply_gravity,
    World.can_fall_to, World.flow_candidates, World.fall_candidates, damp,
    getB, setB, Block.can_move_to, Block.density, Block.is_static, Block.state,
    Block.get_flow_dir, Block.clone_with_flow, chooseIdx, Nat.mod_one]

theorem waterLeftRow_tick1 (R : Nat → Nat) :
    World.update R waterLeftRow =
      { blocks := [[Block.air, Block.air, Block.water FlowDir.left, Block.air, Block.air]], width := 5, height := 1 } := by
  simp [World.update, updateFull, runRows, runCols, stepCell, World.apply_gravity,
    World.can_fall_to, World.flow_candidates, World.fall_candidates, damp, waterLeftRow,
    getB, setB, Block.can_move_to, Block.density, Block.is_static, Block.state,
    Block.get_flow_dir, Block.clone_with_flow, chooseIdx, Nat.mod_one]

theorem waterLeftRow_tick2 (R : Nat → Nat) :
    World.update R
      { blocks := [[Block.air, Block.air, Block.water FlowDir.left, Block.air, Block.air]], width := 5, height := 1 } =
      { blocks := [[Block.air, Block.water FlowDir.left, Block.air, Block.air, Block.air]], width := 5, height := 1 } := by
  simp [World.update, updateFull, runRows, runCols, stepCell, World.apply_gravity,
    World.can_fall_to, World.flow_candidates, World.fall_candidates, damp,
    getB, setB, Block.can_move_to, Block.density, Block.is_static, Block.state,
    Block.get_flow_dir, Block.clone_with_flow, chooseIdx, Nat.mod_one]

theorem waterLeftRow_tick3 (R : Nat → Nat) :
    World.update R
      { blocks := [[Block.air, Block.water FlowDir.left, Block.air, Block.air, Block.air]], width := 5, height := 1 } =
      { blocks := [[Block.water FlowDir.left, Block.air, Block.air, Block.air, Block.air]], width := 5, height := 1 } := by
  simp [World.update, updateFull, runRows, runCols, stepCell, World.apply_gravity,
    World.can_fall_to, World.flow_candidates, World.fall_candidates, damp,
    getB, setB, Block.can_move_to, Block.density, Block.is_static, Block.state,
    Block.get_flow_dir, Block.clone_with_flow, chooseIdx, Nat.mod_one]

theorem waterLeftRow_tick4 (R : Nat → Nat) :
    World.update R
      { blocks := [[Block.water FlowDir.left, Block.air, Block.air, Block.air, Block.air]], width := 5, height := 1 } =
      { blocks := [[Block.air, Block.water FlowDir.right, Block.air, Block.air, Block.air]], width := 5, height := 1 } := by
  simp [World.update, updateFull, runRows, runCols, stepCell, World.apply_gravity,
    World.can_fall_to, World.flow_candidates, World.fall_candidates, damp,
    getB, setB, Block.can_move_to, Block.density, Block.is_static, Block.state,
    Block.get_flow_dir, Block.clone_with_flow, chooseIdx, Nat.mod_one]

/-! ## The claims -/

/-- C8: the movement-legality relation is a strict order on materials: no
material can displace itself (in particular a liquid never displaces a
same-kind liquid cell, whatever the flow tags), and displaceability is
asymmetric. -/
theorem claim_C8_strict_order :
    (∀ m : Block, m.can_move_to m = false) ∧
    (∀ a b : Block, a.can_move_to b = true → b.can_move_to a = false) ∧
    (∀ d d' : FlowDir,
      (Block.water d).can_move_to (Block.water d') = false ∧
      (Block.lava d).can_move_to (Block.lava d') = false) := by
  refine ⟨fun m => ?_, fun a b h => ?_, fun d d' => ⟨rfl, rfl⟩⟩
  · simp [Block.can_move_to]
  · rw [can_move_to_iff] at h
    simp only [Block.can_move_to, decide_eq_false_iff_not]
    omega

/-- Witness for C8 at a concrete pair: sand displaces water but not
conversely. -/
theorem claim_C8_witness :
    Block.sand.can_move_to (Block.water FlowDir.none) = true ∧
    (Block.water FlowDir.none).can_move_to Block.sand = false :=
  ⟨by decide, claim_C8_strict_order.2.1 Block.sand (Block.water FlowDir.none) (by decide)⟩

/-- C9: for a well-formed grid, `get_block` is absent exactly off the
grid, an in-bounds read returns the stored material, and an out-of-bounds
`set_block` is a silent no-op. -/
theorem claim_C9_accessor_bounds (w : World) (x y : Nat) (b : Block) (hw : WF w) :
    (w.get_block x y = none ↔ w.width ≤ x ∨ w.height ≤ y) ∧
    (x < w.width → y < w.height → w.get_block x y = some (getB w x y)) ∧
    (w.width ≤ x ∨ w.height ≤ y → w.set_block x y b = w) := by
  have hlen : w.blocks.length = w.height := hw.1
  refine ⟨?_, ?_, ?_⟩
  · unfold World.get_block
    rcases Nat.lt_or_ge y w.height with hy | hy
    · have hyl : y < w.blocks.length := by omega
      rw [List.getElem?_eq_getElem hyl]
      have hrl : (w.blocks.get ⟨y, hyl⟩).length = w.width := hw.2 _ (List.get_mem _ _ _)
      simp only [Option.some_bind]
      rw [List.getElem?_eq_none_iff]
      simp only [List.get_eq_getElem] at hrl
      omega
    · rw [@List.getElem?_eq_none _ w.blocks y (by omega)]
      constructor
      · intro _
        exact Or.inr hy
      · intro _
        rfl
  · intro hx hy
    unfold World.get_block
    have hyl : y < w.blocks.length := by omega
    have hrl : (w.blocks.get ⟨y, hyl⟩).length = w.width := hw.2 _ (List.get_mem _ _ _)
    simp only [List.get_eq_getElem] at hrl
    have hgd : w.blocks.getD y [] = w.blocks[y] := by
      rw [List.getD_eq_getElem?_getD, List.getElem?_eq_getElem hyl, Option.getD_some]
    rw [List.getElem?_eq_getElem hyl]
    simp only [Option.some_bind]
    rw [List.getElem?_eq_getElem (by omega)]
    unfold getB
    rw [hgd, List.getD_eq_getElem?_getD, List.getElem?_eq_getElem (by omega),
      Option.getD_some]
  · intro hout
    unfold World.set_block
    rw [if_neg (by omega)]

/-- Witness for C9 on a concrete world: reading and writing at column 5 of
a 2×2 grid. -/
theorem claim_C9_witness :
    ((World.new 2 2).get_block 5 0 = none ↔
        (World.new 2 2).width ≤ 5 ∨ (World.new 2 2).height ≤ 0) ∧
    (5 < (World.new 2 2).width → 0 < (World.new 2 2).height →
        (World.new 2 2).get_block 5 0 = some (getB (World.new 2 2) 5 0)) ∧
    ((World.new 2 2).width ≤ 5 ∨ (World.new 2 2).height ≤ 0 →
        (World.new 2 2).set_block 5 0 Block.sand = World.new 2 2) :=
  claim_C9_accessor_bounds (World.new 2 2) 5 0 Block.sand (by decide)

/-- C2: refuted — the claim says the `x - 1` of the bias-damping check is
evaluated only when `x > 0`, but the Rust `&&` chain evaluates
`positions.contains(&(x-1))` whenever the stored bias is `Left`, even at
`x = 0`, where the `usize` subtraction underflows (a panic under debug
overflow checks).  The state is reachable: one tick after
`[Air, Water, Air]` (for the oracle that picks the left candidate) the
water sits at column 0 with a `Left` bias, and the very first cell of the
next tick evaluates the damping check in exactly this situation. -/
theorem claim_C2_underflow_reachable :
    getB (World.update (fun _ => 0) waterMidRow) 0 0 = Block.water FlowDir.left ∧
    damping_left_underflow (fun _ => 0) 0 0
      { w := World.update (fun _ => 0) waterMidRow, updated := [], ctr := 0 } := by
  constructor
  · decide
  · unfold damping_left_underflow
    refine ⟨by decide, by decide, by decide, by decide, by decide, rfl⟩

/-- C1 counterexample: in the `[Water, Air, Air]` single-row scenario the
water is back at column 0 after four ticks (here under the constant-zero
oracle; in fact every draw on the way is forced), refuting "never at
column 0 on subsequent ticks". -/
theorem claim_C1_counterexample :
    getB (updateN (fun _ _ => 0) 4 waterRow) 0 0 = Block.water FlowDir.left := by
  decide

/-- C1 (amended): after one tick the water has left column 0 for column 1
(with a `Right` bias), for every resolution of the tie-breaks; but it does
not stay away from column 0: after four ticks it occupies column 0 again
(the cell it cannot displace is itself, yet its old cell has become air,
which it can displace), again for every resolution. -/
theorem claim_C1_amended :
    (∀ Rs : Nat → Nat → Nat,
      getB (updateN Rs 1 waterRow) 0 0 = Block.air ∧
      getB (updateN Rs 1 waterRow) 1 0 = Block.water FlowDir.right) ∧
    (∀ Rs : Nat → Nat → Nat,
      getB (updateN Rs 4 waterRow) 0 0 = Block.water FlowDir.left) := by
  constructor
  · intro Rs
    rw [show updateN Rs 1 waterRow = World.update (Rs 0) waterRow from rfl, waterRow_tick1]
    exact ⟨rfl, rfl⟩
  · intro Rs
    rw [show updateN Rs 4 waterRow =
        World.update (Rs 3) (World.update (Rs 2)
          (World.update (Rs 1) (World.update (Rs 0) waterRow))) from rfl,
      waterRow_tick1, waterRow_tick2, waterRow_tick3, waterRow_tick4]
    rfl

/-- C3 counterexample: in the single-row `[Water, Air, Lava, Air]` world,
one tick records the coordinate `(1, 0)` twice in the per-tick update
list: the water flows into `(1, 0)`, and later in the same sweep the
denser lava chooses `(1, 0)` as its side-flow destination as well,
displacing the water that had just moved there.  So a grid coordinate can
be the destination of two side-flow swaps in one tick. -/
theorem claim_C3_counterexample :
    (updateFull (fun _ => 0) waterLavaRow).updated = [(1, 0), (1, 0)] := by
  decide

/-- C3 (amended): a coordinate recorded in the per-tick update list is
skipped — never re-processed as a mover — when the sweep reaches it later
in the same tick; but such a coordinate can still be chosen again as the
destination of a second side-flow swap by a denser liquid, as the
`[Water, Air, Lava, Air]` run shows: the water that flowed to `(1, 0)` is
displaced to `(2, 0)` by the lava within the same tick. -/
theorem claim_C3_amended :
    (∀ (R : Nat → Nat) (x y : Nat) (s : TickState),
      (x, y) ∈ s.updated → stepCell R x y s = s) ∧
    (getB (World.update (fun _ => 0) waterLavaRow) 1 0 = Block.lava FlowDir.left ∧
     getB (World.update (fun _ => 0) waterLavaRow) 2 0 = Block.water FlowDir.right) := by
  refine ⟨fun R x y s h => stepCell_eq_skip (Or.inr h), by decide, by decide⟩

/-- Witness for C3 (amended): a liquid at an already-updated coordinate is
skipped. -/
theorem claim_C3_witness :
    stepCell (fun _ => 0) 1 0
      { w := waterLavaRow, updated := [(1, 0)], ctr := 0 } =
      { w := waterLavaRow, updated := [(1, 0)], ctr := 0 } :=
  claim_C3_amended.1 (fun _ => 0) 1 0
    { w := waterLavaRow, updated := [(1, 0)], ctr := 0 } (by decide)

/-- C7: when gravity resolution reaches the diagonal stage (not on the
floor, straight fall impossible), column `x-1` is a candidate iff `x > 0`
and the mover can displace both the below-left cell and the same-row left
cell; symmetrically for `x+1`; an empty candidate list means no movement
(`false` is returned, world and draw counter untouched); a non-empty list
has the oracle-selected candidate swapped with the mover; and every
candidate is selected by some oracle value (the draw is over exactly the
candidate list). -/
theorem claim_C7_gravity_diagonals (w : World) (R : Nat → Nat) (c x y : Nat)
    (hx : x < w.width)
    (hfloor : ¬ (w.height - 1 ≤ y))
    (hstraight : w.can_fall_to (x, y) (x, y + 1) = false) :
    ((x - 1) ∈ w.fall_candidates x y ↔ 0 < x ∧
        (getB w x y).can_move_to (getB w (x - 1) (y + 1)) = true ∧
        (getB w x y).can_move_to (getB w (x - 1) y) = true) ∧
    ((x + 1) ∈ w.fall_candidates x y ↔ x < w.width - 1 ∧
        (getB w x y).can_move_to (getB w (x + 1) (y + 1)) = true ∧
        (getB w x y).can_move_to (getB w (x + 1) y) = true) ∧
    (w.fall_candidates x y = [] → w.apply_gravity R c x y = (w, c, false)) ∧
    (∀ p, chooseIdx (R c) (w.fall_candidates x y) = some p →
        p ∈ w.fall_candidates x y ∧
        w.apply_gravity R c x y =
          (setB (setB w x y (getB w p (y + 1))) p (y + 1) (getB w x y), c + 1, true)) ∧
    (∀ p ∈ w.fall_candidates x y, ∃ r, chooseIdx r (w.fall_candidates x y) = some p) := by
  have hy1 : y + 1 < w.height := by omega
  refine ⟨?_, ?_, ?_, ?_, fun p hp => chooseIdx_surj hp⟩
  · constructor
    · intro hmem
      rcases mem_fall_candidates.mp hmem with ⟨-, hxl, hcf⟩ | ⟨habs, -, -⟩
      · have h := (can_fall_to_other_col (by omega : x - 1 ≠ x)).mp hcf
        exact ⟨hxl, h.2.2.1, h.2.2.2⟩
      · omega
    · intro ⟨hxl, hbelow, hbeside⟩
      refine mem_fall_candidates.mpr (Or.inl ⟨rfl, hxl, ?_⟩)
      exact (can_fall_to_other_col (by omega : x - 1 ≠ x)).mpr
        ⟨by omega, hy1, hbelow, hbeside⟩
  · constructor
    · intro hmem
      rcases mem_fall_candidates.mp hmem with ⟨habs, hxl, -⟩ | ⟨-, hxr, hcf⟩
      · omega
      · have h := (can_fall_to_other_col (by omega : x + 1 ≠ x)).mp hcf
        exact ⟨hxr, h.2.2.1, h.2.2.2⟩
    · intro ⟨hxr, hbelow, hbeside⟩
      refine mem_fall_candidates.mpr (Or.inr ⟨rfl, hxr, ?_⟩)
      exact (can_fall_to_other_col (by omega : x + 1 ≠ x)).mpr
        ⟨by omega, hy1, hbelow, hbeside⟩
  · intro hemp
    unfold World.apply_gravity
    rw [if_neg hfloor]
    simp only
    rw [if_neg (by simp [hstraight]), hemp]
    simp [chooseIdx]
  · intro p hp
    refine ⟨chooseIdx_mem hp, ?_⟩
    unfold World.apply_gravity
    rw [if_neg hfloor]
    simp only
    rw [if_neg (by simp [hstraight])]
    simp only [hp]

/-- Witness for C7 on a concrete 2×2 grid (sand over stone, air on the
left): the left diagonal is a valid candidate. -/
theorem claim_C7_witness : (0 : Nat) ∈ diagWorld.fall_candidates 1 0 :=
  (claim_C7_gravity_diagonals diagWorld (fun _ => 0) 0 1 0 (by decide) (by decide)
      (by decide)).1.mpr (by decide)

/-- C5: bias damping.  If side-flow resolution runs for a liquid whose
stored bias is `Left` and both horizontal neighbours are valid candidates,
the `Right` candidate is dropped: the liquid deterministically moves left
and keeps bias `Left` (first conjunct; the second is the symmetric `Right`
case).  Consequently (third conjunct) a left-flowing liquid in an open row
keeps choosing left every tick, for every resolution of the tie-breaks,
until the left side is blocked by the wall — after which it may choose
right (at tick 4 it moves right). -/
theorem claim_C5_bias_damping :
    (∀ (R : Nat → Nat) (s : TickState) (x y : Nat),
      (getB s.w x y).state = State.liquid →
      (getB s.w x y).get_flow_dir = FlowDir.left →
      (x, y) ∉ s.updated →
      (s.w.apply_gravity R s.ctr x y).2.2 = false →
      0 < x → (getB s.w x y).can_move_to (getB s.w (x - 1) y) = true →
      x < s.w.width - 1 → (getB s.w x y).can_move_to (getB s.w (x + 1) y) = true →
      stepCell R x y s =
        { w := setB (setB s.w x y (getB s.w (x - 1) y)) (x - 1) y
                 ((getB s.w x y).clone_with_flow FlowDir.left),
          updated := s.updated ++ [(x - 1, y)], ctr := s.ctr + 1 }) ∧
    (∀ (R : Nat → Nat) (s : TickState) (x y : Nat),
      (getB s.w x y).state = State.liquid →
      (getB s.w x y).get_flow_dir = FlowDir.right →
      (x, y) ∉ s.updated →
      (s.w.apply_gravity R s.ctr x y).2.2 = false →
      0 < x → (getB s.w x y).can_move_to (getB s.w (x - 1) y) = true →
      x < s.w.width - 1 → (getB s.w x y).can_move_to (getB s.w (x + 1) y) = true →
      stepCell R x y s =
        { w := setB (setB s.w x y (getB s.w (x + 1) y)) (x + 1) y
                 ((getB s.w x y).clone_with_flow FlowDir.right),
          updated := s.updated ++ [(x + 1, y)], ctr := s.ctr + 1 }) ∧
    (∀ Rs : Nat → Nat → Nat,
      getB (updateN Rs 1 waterLeftRow) 2 0 = Block.water FlowDir.left ∧
      getB (updateN Rs 2 waterLeftRow) 1 0 = Block.water FlowDir.left ∧
      getB (updateN Rs 3 waterLeftRow) 0 0 = Block.water FlowDir.left ∧
      getB (updateN Rs 4 waterLeftRow) 1 0 = Block.water FlowDir.right) := by
  refine ⟨?_, ?_, ?_⟩
  · intro R s x y hliq hfd hmem hfell hxl hl hxr hr
    have hstatic : (getB s.w x y).is_static = false := state_liquid_not_static hliq
    have hskip : ¬ ((getB s.w x y).is_static = true ∨ (x, y) ∈ s.updated) := by
      rintro (h | h)
      · rw [hstatic] at h
        cases h
      · exact hmem h
    have hcand : s.w.flow_candidates (getB s.w x y) x y = [x - 1, x + 1] := by
      unfold World.flow_candidates
      rw [if_pos ⟨hxl, hl⟩, if_pos ⟨hxr, hr⟩]
      rfl
    have hch : chooseIdx (R s.ctr)
        (damp (getB s.w x y).get_flow_dir x (s.w.flow_candidates (getB s.w x y) x y)) =
        some (x - 1) := by
      rw [hcand, hfd]
      unfold damp
      rw [if_pos ⟨rfl, by simp, by simp⟩]
      simp [List.eraseIdx]
    rw [stepCell_eq_liquid_flow hskip hliq hfell hch, if_pos (by omega : x - 1 < x)]
  · intro R s x y hliq hfd hmem hfell hxl hl hxr hr
    have hstatic : (getB s.w x y).is_static = false := state_liquid_not_static hliq
    have hskip : ¬ ((getB s.w x y).is_static = true ∨ (x, y) ∈ s.updated) := by
      rintro (h | h)
      · rw [hstatic] at h
        cases h
      · exact hmem h
    have hcand : s.w.flow_candidates (getB s.w x y) x y = [x - 1, x + 1] := by
      unfold World.flow_candidates
      rw [if_pos ⟨hxl, hl⟩, if_pos ⟨hxr, hr⟩]
      rfl
    have hch : chooseIdx (R s.ctr)
        (damp (getB s.w x y).get_flow_dir x (s.w.flow_candidates (getB s.w x y) x y)) =
        some (x + 1) := by
      rw [hcand, hfd]
      unfold damp
      rw [if_neg (by rintro ⟨h, -⟩; cases h), if_pos ⟨rfl, by simp, by simp⟩]
      simp [List.eraseIdx]
    rw [stepCell_eq_liquid_flow hskip hliq hfell hch, if_neg (by omega : ¬ (x + 1 < x))]
  · intro Rs
    refine ⟨?_, ?_, ?_, ?_⟩
    · rw [show updateN Rs 1 waterLeftRow = World.update (Rs 0) waterLeftRow from rfl,
        waterLeftRow_tick1]
      rfl
    · rw [show updateN Rs 2 waterLeftRow =
          World.update (Rs 1) (World.update (Rs 0) waterLeftRow) from rfl,
        waterLeftRow_tick1, waterLeftRow_tick2]
      rfl
    · rw [show updateN Rs 3 waterLeftRow =
          World.update (Rs 2) (World.update (Rs 1) (World.update (Rs 0) waterLeftRow))
            from rfl,
        waterLeftRow_tick1, waterLeftRow_tick2, waterLeftRow_tick3]
      rfl
    · rw [show updateN Rs 4 waterLeftRow =
          World.update (Rs 3) (World.update (Rs 2)
            (World.update (Rs 1) (World.update (Rs 0) waterLeftRow))) from rfl,
        waterLeftRow_tick1, waterLeftRow_tick2, waterLeftRow_tick3, waterLeftRow_tick4]
      rfl

/-- Witness for C5: the left-bias rule applied to the concrete water at
column 3 of the 5×1 scenario row. -/
theorem claim_C5_witness :
    stepCell (fun _ => 0) 3 0 { w := waterLeftRow, updated := [], ctr := 0 } =
      { w := { blocks := [[Block.air, Block.air, Block.water FlowDir.left, Block.air, Block.air]], width := 5, height := 1 },
        updated := [(2, 0)], ctr := 1 } := by
  rw [claim_C5_bias_damping.1 (fun _ => 0) { w := waterLeftRow, updated := [], ctr := 0 }
    3 0 (by decide) (by decide) (by decide) (by decide) (by decide) (by decide)
    (by decide) (by decide)]
  decide

/-! ## No-move lemmas and the whole-tick invariant rule -/

theorem apply_gravity_blocked {w : World} {R : Nat → Nat} {c x y : Nat}
    (hstraight : w.can_fall_to (x, y) (x, y + 1) = false)
    (hcand : w.fall_candidates x y = []) :
    w.apply_gravity R c x y = (w, c, false) := by
  rcases apply_gravity_spec w R c x y with ⟨-, h⟩ | ⟨-, hcf, h⟩ | ⟨-, -, -, h⟩ |
    ⟨-, -, p, hp, -, h⟩
  · exact h
  · exact absurd hcf (by simp [hstraight])
  · exact h
  · rw [hcand] at hp
    simp at hp

theorem fall_candidates_nil {w : World} {x y : Nat}
    (hl : 0 < x → w.can_fall_to (x, y) (x - 1, y + 1) = false)
    (hr : x < w.width - 1 → w.can_fall_to (x, y) (x + 1, y + 1) = false) :
    w.fall_candidates x y = [] := by
  unfold World.fall_candidates
  rw [if_neg, if_neg]
  · rfl
  · rintro ⟨h1, h2⟩
    rw [hr h1] at h2
    cases h2
  · rintro ⟨h1, h2⟩
    rw [hl h1] at h2
    cases h2

/-- A solid cell whose gravity resolution reports no fall leaves the tick
state unchanged. -/
theorem stepCell_solid_nofall {R : Nat → Nat} {x y : Nat} {s : TickState}
    (hsolid : (getB s.w x y).state = State.solid)
    (hag : s.w.apply_gravity R s.ctr x y = (s.w, s.ctr, false)) :
    stepCell R x y s = s := by
  by_cases hskip : (getB s.w x y).is_static = true ∨ (x, y) ∈ s.updated
  · exact stepCell_eq_skip hskip
  · rw [stepCell_eq_solid hskip hsolid, hag]

/-- A property preserved by every cell step holds after a full tick. -/
theorem updateFull_inv (R : Nat → Nat) (w : World) (P : TickState → Prop)
    (hstep : ∀ x' y' s, P s → P (stepCell R x' y' s))
    (h0 : P { w := w, updated := [], ctr := 0 }) : P (updateFull R w) := by
  unfold updateFull
  rw [runRows_eq_bandRows]
  exact bandRows_inv R w.width 0 w.height P
    (fun yr s2 _ _ hp =>
      runCols_inv R yr 0 w.width P (fun xc s3 _ _ hp3 => hstep xc yr s3 hp3) s2 hp)
    _ h0

/-- Witness for C1 (amended) under a nonzero oracle family. -/
theorem claim_C1_witness :
    getB (updateN (fun _ _ => 1) 1 waterRow) 1 0 = Block.water FlowDir.right ∧
    getB (updateN (fun _ _ => 1) 4 waterRow) 0 0 = Block.water FlowDir.left :=
  ⟨(claim_C1_amended.1 (fun _ _ => 1)).2, claim_C1_amended.2 (fun _ _ => 1)⟩

/-- C6: a sand cell sitting on stone with stone on both lower diagonals is
a stable equilibrium: for any number of ticks and every resolution of the
random draws it stays put (and the three stones stay put as well, since
nothing can displace stone). -/
theorem claim_C6_stable_equilibrium (w : World) (Rs : Nat → Nat → Nat) (n x y : Nat)
    (hw : WF w) (hx0 : 0 < x) (_hxw : x + 1 < w.width) (_hyh : y + 1 < w.height)
    (hsand : getB w x y = Block.sand)
    (hbelow : getB w x (y + 1) = Block.stone)
    (hdl : getB w (x - 1) (y + 1) = Block.stone)
    (hdr : getB w (x + 1) (y + 1) = Block.stone) :
    getB (updateN Rs n w) x y = Block.sand := by
  let Q : World → Prop := fun w' =>
    w'.width = w.width ∧ w'.height = w.height ∧ WF w' ∧
      getB w' x y = Block.sand ∧ getB w' x (y + 1) = Block.stone ∧
      getB w' (x - 1) (y + 1) = Block.stone ∧ getB w' (x + 1) (y + 1) = Block.stone
  have stone_keep : ∀ (R : Nat → Nat) (x' y' : Nat) (s : TickState) (a b : Nat),
      getB s.w a b = Block.stone → getB (stepCell R x' y' s).w a b = Block.stone := by
    intro R x' y' s a b hstone
    by_cases hch : getB (stepCell R x' y' s).w a b = getB s.w a b
    · rw [hch, hstone]
    · exfalso
      obtain ⟨hstatic, -, harm⟩ := stepCell_getB_ne hch
      rcases harm with ⟨hax, hby⟩ | ⟨-, hmv, -⟩ | ⟨-, -, -, hmv⟩
      · rw [← hax, ← hby, hstone] at hstatic
        cases hstatic
      · rw [hstone] at hmv
        rw [can_move_to_stone] at hmv
        cases hmv
      · rw [hstone] at hmv
        rw [can_move_to_stone] at hmv
        cases hmv
  have hstep : ∀ (R : Nat → Nat) (x' y' : Nat) (s : TickState),
      Q s.w → Q (stepCell R x' y' s).w := by
    intro R x' y' s ⟨hwd, hht, hwf, hs, hb, hl, hr⟩
    refine ⟨by simp [hwd], by simp [hht], WF_stepCell hwf R x' y', ?_,
      stone_keep R x' y' s _ _ hb, stone_keep R x' y' s _ _ hl,
      stone_keep R x' y' s _ _ hr⟩
    by_cases hch : getB (stepCell R x' y' s).w x y = getB s.w x y
    · rw [hch, hs]
    · obtain ⟨hstatic, -, harm⟩ := stepCell_getB_ne hch
      rcases harm with ⟨hax, hby⟩ | ⟨-, hmv, -⟩ | ⟨-, -, -, hmv⟩
      · -- the mover is the sand itself; it is blocked on all three sides
        subst hax
        subst hby
        exfalso
        apply hch
        rw [stepCell_solid_nofall (by rw [hs]; rfl) ?_]
        apply apply_gravity_blocked
        · have : ¬ (s.w.can_fall_to (x, y) (x, y + 1) = true) := by
            intro h
            have := (can_fall_to_same_col.mp h).2.2
            rw [hs, hb] at this
            rw [can_move_to_stone] at this
            cases this
          simpa using this
        · apply fall_candidates_nil
          · intro hx
            have : ¬ (s.w.can_fall_to (x, y) (x - 1, y + 1) = true) := by
              intro h
              have := ((can_fall_to_other_col (by omega : x - 1 ≠ x)).mp h).2.2.1
              rw [hs, hl] at this
              rw [can_move_to_stone] at this
              cases this
            simpa using this
          · intro hx
            have : ¬ (s.w.can_fall_to (x, y) (x + 1, y + 1) = true) := by
              intro h
              have := ((can_fall_to_other_col (by omega : x + 1 ≠ x)).mp h).2.2.1
              rw [hs, hr] at this
              rw [can_move_to_stone] at this
              cases this
            simpa using this
      · rw [hs] at hmv
        rw [not_can_move_to_sand hstatic] at hmv
        cases hmv
      · rw [hs] at hmv
        rw [not_can_move_to_sand hstatic] at hmv
        cases hmv
  have htick : ∀ (R : Nat → Nat) (w' : World), Q w' → Q (World.update R w') := by
    intro R w' hq
    have := updateFull_inv R w' (fun s => Q s.w) (fun x' y' s hp => hstep R x' y' s hp) hq
    exact this
  have hn : Q (updateN Rs n w) := by
    induction n with
    | zero => exact ⟨rfl, rfl, hw, hsand, hbelow, hdl, hdr⟩
    | succ n ih => exact htick (Rs n) _ ih
  exact hn.2.2.2.1

/-- Witness for C6 on a concrete 3×2 grid (sand at `(1,0)` boxed in by
stone), run for five ticks. -/
theorem claim_C6_witness :
    getB (updateN (fun _ _ => 0) 5
      { blocks := [[Block.air, Block.sand, Block.air],
                   [Block.stone, Block.stone, Block.stone]], width := 3, height := 2 })
      1 0 = Block.sand :=
  claim_C6_stable_equilibrium
    { blocks := [[Block.air, Block.sand, Block.air],
                 [Block.stone, Block.stone, Block.stone]], width := 3, height := 2 }
    (fun _ _ => 0) 5 1 0 (by decide) (by decide) (by decide) (by decide) (by decide)
    (by decide) (by decide) (by decide)

/-! ## Conservation of matter -/

theorem countP_set_add (p : α → Bool) (l : List α) (i : Nat) (a : α) (h : i < l.length) :
    (l.set i a).countP p + (if p (l.getD i a) then 1 else 0) =
      l.countP p + (if p a then 1 else 0) := by
  induction l generalizing i with
  | nil => simp at h
  | cons hd tl ih =>
    cases i with
    | zero =>
      simp only [List.set, List.getD_cons_zero, List.countP_cons]
      omega
    | succ i =>
      simp only [List.set, List.getD_cons_succ, List.countP_cons]
      have := ih i (by simpa using h)
      omega

theorem sum_map_set (f : List Block → Nat) (l : List (List Block)) (i : Nat)
    (r : List Block) (h : i < l.length) :
    ((l.set i r).map f).sum + f (l.getD i r) = (l.map f).sum + f r := by
  induction l generalizing i with
  | nil => simp at h
  | cons hd tl ih =>
    cases i with
    | zero =>
      simp only [List.set, List.getD_cons_zero, List.map_cons, List.sum_cons]
      omega
    | succ i =>
      simp only [List.set, List.getD_cons_succ, List.map_cons, List.sum_cons]
      have := ih i (by simpa using h)
      omega

theorem countRow_set (r : List Block) (x : Nat) (b : Block) (k : Block)
    (hx : x < r.length) :
    countRow (r.set x b) k + (if kind (r.getD x b) = k then 1 else 0) =
      countRow r k + (if kind b = k then 1 else 0) := by
  have := countP_set_add (fun b0 => decide (kind b0 = k)) r x b hx
  unfold countRow
  simpa using this

theorem getD_eq_of_lt (l : List α) (d1 d2 : α) (i : Nat) (h : i < l.length) :
    l.getD i d1 = l.getD i d2 := by
  rw [List.getD_eq_getElem _ _ h, List.getD_eq_getElem _ _ h]

theorem countW_setB (w : World) (x y : Nat) (b : Block) (k : Block)
    (hyl : y < w.blocks.length) (hxl : x < (w.blocks.getD y []).length) :
    countW (setB w x y b) k + (if kind (getB w x y) = k then 1 else 0) =
      countW w k + (if kind b = k then 1 else 0) := by
  have h1 := sum_map_set (fun r => countRow r k) w.blocks y
    ((w.blocks.getD y []).set x b) hyl
  rw [show w.blocks.getD y ((w.blocks.getD y []).set x b) = w.blocks.getD y [] from
    getD_eq_of_lt _ _ _ y hyl] at h1
  have h2 := countRow_set (w.blocks.getD y []) x b k hxl
  rw [show (w.blocks.getD y []).getD x b = (w.blocks.getD y []).getD x Block.air from
    getD_eq_of_lt _ _ _ x hxl] at h2
  unfold countW setB getB
  simp only at h1 h2 ⊢
  omega

theorem rowlen_setB (w : World) (x y c : Nat) (b : Block) :
    ((setB w x y b).blocks.getD c []).length = (w.blocks.getD c []).length := by
  unfold setB
  simp only
  rw [getD_set]
  split
  · next h =>
    rw [List.length_set, ← h.1]
  · rfl

/-- Swapping the contents of two distinct in-range cells (allowing the
block written back to change only in a way that preserves its kind) keeps
every kind count unchanged. -/
theorem countW_swap (w : World) (x1 y1 x2 y2 : Nat) (b2 : Block)
    (hne : ¬ (x1 = x2 ∧ y1 = y2))
    (h1y : y1 < w.blocks.length) (h1x : x1 < (w.blocks.getD y1 []).length)
    (h2y : y2 < w.blocks.length) (h2x : x2 < (w.blocks.getD y2 []).length)
    (hk : kind b2 = kind (getB w x1 y1)) (k : Block) :
    countW (setB (setB w x1 y1 (getB w x2 y2)) x2 y2 b2) k = countW w k := by
  have e1 := countW_setB w x1 y1 (getB w x2 y2) k h1y h1x
  have h2y' : y2 < (setB w x1 y1 (getB w x2 y2)).blocks.length := by
    rw [blocks_length_setB]
    exact h2y
  have h2x' : x2 < ((setB w x1 y1 (getB w x2 y2)).blocks.getD y2 []).length := by
    rw [rowlen_setB]
    exact h2x
  have e2 := countW_setB (setB w x1 y1 (getB w x2 y2)) x2 y2 b2 k h2y' h2x'
  have hmid : getB (setB w x1 y1 (getB w x2 y2)) x2 y2 = getB w x2 y2 :=
    getB_setB_ne _ _ _ _ _ _ (by tauto)
  rw [hmid] at e2
  rw [hk] at e2
  omega

/-- One cell step never changes any kind count. -/
theorem countW_stepCell (R : Nat → Nat) (x y : Nat) (s : TickState) (hw : WF s.w)
    (k : Block) : countW (stepCell R x y s).w k = countW s.w k := by
  rcases stepCell_spec R x y s with ⟨-, heq⟩ | ⟨hstatic, -, hcase⟩
  · rw [heq]
  · have hmover : getB s.w x y ≠ Block.air := by
      intro h
      rw [h] at hstatic
      cases hstatic
    obtain ⟨hyl, hxl⟩ := bounds_of_getB_ne_air s.w x y hmover
    have hyh : y < s.w.height := by
      rw [← hw.1]
      exact hyl
    have hxw : x < s.w.width := by
      rw [← WF.rowLen hw hyh]
      exact hxl
    have gravity_case : countW (s.w.apply_gravity R s.ctr x y).1 k = countW s.w k := by
      rcases apply_gravity_spec s.w R s.ctr x y with ⟨-, hag⟩ | ⟨-, hfall, hag⟩ |
        ⟨-, -, -, hag⟩ | ⟨-, -, p, hp, -, hag⟩ <;> rw [hag]
      · have hb := can_fall_to_same_col.mp hfall
        exact countW_swap s.w x y x (y + 1) (getB s.w x y) (by omega) hyl hxl
          (by rw [hw.1]; omega) (by rw [WF.rowLen hw hb.2.1]; omega) rfl k
      · have hpx : p ≠ x := by
          rcases mem_fall_candidates.mp hp with ⟨rfl, hx, -⟩ | ⟨rfl, -, -⟩ <;> omega
        have hb : p < s.w.width ∧ y + 1 < s.w.height := by
          rcases mem_fall_candidates.mp hp with ⟨hp1, -, hcf⟩ | ⟨hp1, -, hcf⟩ <;>
            subst hp1 <;>
            exact ⟨((can_fall_to_other_col hpx).mp hcf).1,
              ((can_fall_to_other_col hpx).mp hcf).2.1⟩
        exact countW_swap s.w x y p (y + 1) (getB s.w x y) (by omega) hyl hxl
          (by rw [hw.1]; omega) (by rw [WF.rowLen hw hb.2]; omega) rfl k
    rcases hcase with ⟨-, heq⟩ | ⟨-, -, heq⟩ | ⟨-, -, -, heq⟩ | ⟨-, -, p, hp, -, heq⟩ <;>
      rw [heq]
    · exact gravity_case
    · exact gravity_case
    · have hpx : p ≠ x := by
        rcases mem_flow_candidates.mp hp with ⟨rfl, hx, -⟩ | ⟨rfl, -, -⟩ <;> omega
      have hpw : p < s.w.width := by
        rcases mem_flow_candidates.mp hp with ⟨rfl, hx, -⟩ | ⟨rfl, hx, -⟩ <;> omega
      exact countW_swap s.w x y p y _ (by rintro ⟨h, -⟩; exact hpx h.symm) hyl hxl hyl
        (by rw [WF.rowLen hw hyh]; omega)
        (kind_clone_with_flow _ _) k

/-- C10: one tick conserves matter — for every well-formed grid, every
oracle, and every material kind `k`, the number of cells holding kind `k`
(liquid flow tags disregarded) is the same before and after the tick:
every modification is a swap of two cells, at most rewriting the moved
liquid's flow tag. -/
theorem claim_C10_conservation (w : World) (R : Nat → Nat) (k : Block) (hw : WF w) :
    countW (World.update R w) k = countW w k := by
  have h := updateFull_inv R w (fun s => WF s.w ∧ countW s.w k = countW w k)
    (fun x' y' s hp => ⟨WF_stepCell hp.1 R x' y',
      by rw [countW_stepCell R x' y' s hp.1 k]; exact hp.2⟩) ⟨hw, rfl⟩
  exact h.2

/-- Witness for C10: the water count of the `[Water, Air, Lava, Air]` row
is unchanged by a tick (in which both liquids move). -/
theorem claim_C10_witness :
    countW (World.update (fun _ => 0) waterLavaRow) (Block.water FlowDir.none) =
      countW waterLavaRow (Block.water FlowDir.none) :=
  claim_C10_conservation waterLavaRow (fun _ => 0) (Block.water FlowDir.none) (by decide)

/-! ## C4: sand falls straight down one row per tick -/

theorem sandWorld_tick1 (R : Nat → Nat) :
    World.update R sandWorld =
      { blocks := [[Block.air, Block.air, Block.air], [Block.air, Block.sand, Block.air], [Block.air, Block.air, Block.air]], width := 3, height := 3 } := by
  simp [World.update, updateFull, runRows, runCols, stepCell, World.apply_gravity,
    World.can_fall_to, World.flow_candidates, World.fall_candidates, damp, sandWorld,
    World.new, World.set_block, getB, setB, Block.can_move_to, Block.density,
    Block.is_static, Block.state, Block.get_flow_dir, Block.clone_with_flow, chooseIdx,
    Nat.mod_one, List.replicate]

theorem sandWorld_tick2 (R : Nat → Nat) :
    World.update R
      { blocks := [[Block.air, Block.air, Block.air], [Block.air, Block.sand, Block.air], [Block.air, Block.air, Block.air]], width := 3, height := 3 } =
      { blocks := [[Block.air, Block.air, Block.air], [Block.air, Block.air, Block.air], [Block.air, Block.sand, Block.air]], width := 3, height := 3 } := by
  simp [World.update, updateFull, runRows, runCols, stepCell, World.apply_gravity,
    World.can_fall_to, World.flow_candidates, World.fall_candidates, damp,
    getB, setB, Block.can_move_to, Block.density,
    Block.is_static, Block.state, Block.get_flow_dir, Block.clone_with_flow, chooseIdx,
    Nat.mod_one]

theorem sandWorld_tick3 (R : Nat → Nat) :
    World.update R
      { blocks := [[Block.air, Block.air, Block.air], [Block.air, Block.air, Block.air], [Block.air, Block.sand, Block.air]], width := 3, height := 3 } =
      { blocks := [[Block.air, Block.air, Block.air], [Block.air, Block.air, Block.air], [Block.air, Block.sand, Block.air]], width := 3, height := 3 } := by
  simp [World.update, updateFull, runRows, runCols, stepCell, World.apply_gravity,
    World.can_fall_to, World.flow_candidates, World.fall_candidates, damp,
    getB, setB, Block.can_move_to, Block.density,
    Block.is_static, Block.state, Block.get_flow_dir, Block.clone_with_flow, chooseIdx,
    Nat.mod_one]

/-- C4: a sand cell with air directly below falls straight down exactly
one row in one tick — for every well-formed grid and every resolution of
the random draws, after the tick the cell one row below holds the sand
(first conjunct; no randomness is involved, as the same conclusion holds
for every oracle).  Second conjunct: the 3×3 end-to-end scenario — sand
set at `(1, 0)` is at `(1, 1)` after one tick (and only one row down), at
`(1, 2)` after two, and still at `(1, 2)` after three (floor reached). -/
theorem claim_C4_sand_falls_one_row :
    (∀ (w : World) (R : Nat → Nat) (x y : Nat),
      WF w → getB w x y = Block.sand → y + 1 < w.height → getB w x (y + 1) = Block.air →
      getB (World.update R w) x (y + 1) = Block.sand) ∧
    (∀ Rs : Nat → Nat → Nat,
      getB (updateN Rs 1 sandWorld) 1 1 = Block.sand ∧
      getB (updateN Rs 1 sandWorld) 1 0 = Block.air ∧
      getB (updateN Rs 1 sandWorld) 1 2 = Block.air ∧
      getB (updateN Rs 2 sandWorld) 1 2 = Block.sand ∧
      getB (updateN Rs 3 sandWorld) 1 2 = Block.sand) := by
  constructor
  · intro w R x y hw hsand hyh hair
    have hbne : getB w x y ≠ Block.air := by
      rw [hsand]
      decide
    obtain ⟨hyl, hxl⟩ := bounds_of_getB_ne_air w x y hbne
    have hyht : y < w.height := by omega
    have hxw : x < w.width := by
      rw [← WF.rowLen hw hyht]
      exact hxl
    -- Invariant before the sand is processed: the sand is still at (x, y),
    -- whatever sits below it is displaceable (density < 3), and (x, y) has
    -- not been recorded in the update list.
    set P1 : TickState → Prop := fun s =>
      s.w.width = w.width ∧ s.w.height = w.height ∧ WF s.w ∧
        getB s.w x y = Block.sand ∧ (getB s.w x (y + 1)).density < 3 ∧
        (x, y) ∉ s.updated with hP1
    -- Invariant after the sand fell: the cell below holds the sand.
    set P2 : TickState → Prop := fun s => getB s.w x (y + 1) = Block.sand with hP2
    have pres1 : ∀ (x' y' : Nat) (s : TickState), (y < y' ∨ (y' = y ∧ x' < x)) →
        P1 s → P1 (stepCell R x' y' s) := by
      intro x' y' s hcoord hp
      obtain ⟨hwd, hht, hwf, hs, hd, hu⟩ := hp
      refine ⟨by simp [hwd], by simp [hht], WF_stepCell hwf R x' y', ?_, ?_, ?_⟩
      · by_cases hch : getB (stepCell R x' y' s).w x y = getB s.w x y
        · rw [hch, hs]
        · exfalso
          obtain ⟨hstatic, -, harm⟩ := stepCell_getB_ne hch
          rcases harm with ⟨hax, hby⟩ | ⟨hby, -, -⟩ | ⟨hby, -, -, hmv⟩
          · omega
          · omega
          · rw [hs, not_can_move_to_sand hstatic] at hmv
            cases hmv
      · by_cases hch : getB (stepCell R x' y' s).w x (y + 1) = getB s.w x (y + 1)
        · rw [hch]
          exact hd
        · obtain ⟨hstatic, -, harm⟩ := stepCell_getB_ne hch
          rcases harm with ⟨hax, hby⟩ | ⟨hby, -, harm2⟩ | ⟨hby, hax, hliq, -⟩
          · subst hax
            subst hby
            rcases stepCell_getB_mover R x (y + 1) s with hsame | hmv2
            · exact absurd hsame hch
            · rw [can_move_to_iff] at hmv2
              omega
          · have hy' : y' = y := by omega
            subst hy'
            rcases harm2 with hax | ⟨hmv2, -⟩
            · omega
            · rw [hs, not_can_move_to_sand hstatic] at hmv2
              cases hmv2
          · have hdnew := stepCell_getB_target hch (by
              rintro ⟨h1, -⟩
              exact hax h1)
            have hld := density_le_of_liquid hliq
            omega
      · intro hmem
        rcases stepCell_updated_mem hmem with hold | ⟨hq2, hq1, hliq2, hmv⟩
        · exact hu hold
        · simp only at hq2 hq1 hmv
          subst hq2
          rw [hs, not_can_move_to_sand (state_liquid_not_static hliq2)] at hmv
          cases hmv
    have boundary : ∀ s : TickState, P1 s → P2 (stepCell R x y s) := by
      intro s hp
      obtain ⟨hwd, hht, hwf, hs, hd, hu⟩ := hp
      have hstatic : (getB s.w x y).is_static = false := by
        rw [hs]
        rfl
      have hskip : ¬ ((getB s.w x y).is_static = true ∨ (x, y) ∈ s.updated) := by
        rintro (h | h)
        · rw [hstatic] at h
          cases h
        · exact hu h
      have hsolid : (getB s.w x y).state = State.solid := by
        rw [hs]
        rfl
      have hfall : s.w.can_fall_to (x, y) (x, y + 1) = true := by
        apply can_fall_to_same_col.mpr
        refine ⟨by rw [hwd]; exact hxw, by rw [hht]; exact hyh, ?_⟩
        rw [hs, can_move_to_iff]
        exact hd
      rcases apply_gravity_spec s.w R s.ctr x y with ⟨hfl, -⟩ | ⟨-, -, hag⟩ |
        ⟨-, hcf, -, -⟩ | ⟨-, hcf, -⟩
      · exfalso
        rw [hht] at hfl
        omega
      · show getB (stepCell R x y s).w x (y + 1) = Block.sand
        rw [stepCell_eq_solid hskip hsolid]
        simp only
        rw [hag]
        simp only
        rw [getB_setB_same, hs]
        · rw [blocks_length_setB, hwf.1, hht]
          omega
        · rw [rowlen_setB, WF.rowLen hwf (by rw [hht]; omega)]
          rw [hwd]
          exact hxw
      · rw [hcf] at hfall
        cases hfall
      · rw [hcf] at hfall
        cases hfall
    have pres2 : ∀ (x' y' : Nat) (s : TickState), (y' < y ∨ (y' = y ∧ x < x')) →
        P2 s → P2 (stepCell R x' y' s) := by
      intro x' y' s hcoord hs2
      by_cases hch : getB (stepCell R x' y' s).w x (y + 1) = getB s.w x (y + 1)
      · show getB (stepCell R x' y' s).w x (y + 1) = Block.sand
        rw [hch]
        exact hs2
      · exfalso
        obtain ⟨hstatic, -, harm⟩ := stepCell_getB_ne hch
        rcases harm with ⟨hax, hby⟩ | ⟨hby, hmv, -⟩ | ⟨hby, -, -, -⟩
        · omega
        · rw [hs2, not_can_move_to_sand hstatic] at hmv
          cases hmv
        · omega
    have h0 : P1 { w := w, updated := [], ctr := 0 } := by
      refine ⟨rfl, rfl, hw, hsand, ?_, by simp⟩
      rw [hair]
      decide
    show getB (updateFull R w).w x (y + 1) = Block.sand
    unfold updateFull
    rw [runRows_eq_bandRows,
      show w.height = (y + 1) + (w.height - (y + 1)) from by omega, bandRows_add,
      bandRows_succ, Nat.zero_add, Nat.zero_add]
    set s1 := bandRows R w.width (y + 1) (w.height - (y + 1))
      { w := w, updated := [], ctr := 0 } with hs1def
    have hP1s1 : P1 s1 := by
      rw [hs1def]
      exact bandRows_inv R w.width (y + 1) (w.height - (y + 1)) P1
        (fun yr s2 hlo hhi hp =>
          runCols_inv R yr 0 w.width P1
            (fun xc s3 _ _ hp3 => pres1 xc yr s3 (Or.inl (by omega)) hp3) s2 hp)
        _ h0
    have hP2row : P2 (runCols R y 0 w.width s1) := by
      have h1 : P1 (runCols R y 0 x s1) :=
        runCols_inv R y 0 x P1
          (fun xc s3 hlo hhi hp3 => pres1 xc y s3 (Or.inr ⟨rfl, by omega⟩) hp3) s1 hP1s1
      have h2 : P2 (stepCell R x y (runCols R y 0 x s1)) := boundary _ h1
      have h3 : P2 (runCols R y (x + 1) (w.width - x - 1)
          (stepCell R x y (runCols R y 0 x s1))) :=
        runCols_inv R y (x + 1) (w.width - x - 1) P2
          (fun xc s3 hlo hhi hp3 => pres2 xc y s3 (Or.inr ⟨rfl, by omega⟩) hp3) _ h2
      have heq : runCols R y 0 w.width s1 =
          runCols R y (x + 1) (w.width - x - 1) (stepCell R x y (runCols R y 0 x s1)) := by
        conv_lhs => rw [show w.width = x + (1 + (w.width - x - 1)) from by omega]
        rw [runCols_add, runCols_add]
        simp only [Nat.zero_add]
        rfl
      rw [heq]
      exact h3
    exact bandRows_inv R w.width 0 y P2
      (fun yr s2 hlo hhi hp =>
        runCols_inv R yr 0 w.width P2
          (fun xc s3 _ _ hp3 => pres2 xc yr s3 (Or.inl (by omega)) hp3) s2 hp)
      _ hP2row
  · intro Rs
    refine ⟨?_, ?_, ?_, ?_, ?_⟩
    · rw [show updateN Rs 1 sandWorld = World.update (Rs 0) sandWorld from rfl,
        sandWorld_tick1]
      rfl
    · rw [show updateN Rs 1 sandWorld = World.update (Rs 0) sandWorld from rfl,
        sandWorld_tick1]
      rfl
    · rw [show updateN Rs 1 sandWorld = World.update (Rs 0) sandWorld from rfl,
        sandWorld_tick1]
      rfl
    · rw [show updateN Rs 2 sandWorld =
          World.update (Rs 1) (World.update (Rs 0) sandWorld) from rfl,
        sandWorld_tick1, sandWorld_tick2]
      rfl
    · rw [show updateN Rs 3 sandWorld =
          World.update (Rs 2) (World.update (Rs 1) (World.update (Rs 0) sandWorld))
            from rfl,
        sandWorld_tick1, sandWorld_tick2, sandWorld_tick3]
      rfl

/-- Witness for C4: the first conjunct applied to the concrete 3×3
scenario grid at `(1, 0)`. -/
theorem claim_C4_witness :
    getB (World.update (fun _ => 0) sandWorld) 1 1 = Block.sand :=
  claim_C4_sand_falls_one_row.1 sandWorld (fun _ => 0) 1 0 (by decide) (by decide)
    (by decide) (by decide)

end FallingSand
